import Mathlib

/-!
# Cache statistics windows of `leveldb/common/common.go`

A shallow embedding of the `CacheStat` window type, its constructor
`NewCacheStat`, the contiguity-checked merge `CacheStat.Add` and the report
`CacheStat.Print`, followed by theorems about them.

Modelling conventions:

* `int64` is `I64`, the integers in `[-2^63, 2^63)`; `+` is `I64.add`, which
  wraps with an explicit `% 2^64`. Go's `int` is taken at its 64-bit width.
* `uint64` is `U64`, the naturals below `2^64`; `+` is `U64.add`.
* `map[string]int64` is `GoMap`: either the nil map or a table with pairwise
  distinct keys. Reading a nil map or an absent key gives `0`; assigning into
  a nil map is the run-time panic `Fault.nilMapAssign`.
* `range` visits the entries of a table in the order the table stores them.
  Every table order is a possible value of the type, so a theorem about all
  windows covers every iteration order.
* `os.Exit(1)` and run-time panics end the run: `Add` and `Print` return
  `Except`, and the error of `Add` carries the receiver as it was at that point.
* The receiver and the argument of `Add` are distinct objects that share no map.
* `Print` is the list of the lines it prints, each line as the quantities printed. The
  percentages that `Print` computes in `float64` are kept as their two integer operands
  (`Pct`); `Pct.exact` reads them in exact rational arithmetic, and a division by 0, which
  in `float64` gives NaN or an infinity without a panic, has no value there.
-/

namespace common

/-! ## Machine integers -/

/-- Two's-complement reduction of an integer to the `int64` range. -/
def wrap64 (x : Int) : Int := (x + 2 ^ 63) % 2 ^ 64 - 2 ^ 63

/-- Go `int64` (and `int` on a 64-bit target). -/
abbrev I64 := { x : Int // -(2 ^ 63) ≤ x ∧ x < 2 ^ 63 }

/-- Go `uint64`. -/
abbrev U64 := { n : Nat // n < 2 ^ 64 }

/-- The `int64` value of an integer, wrapped. -/
def I64.ofInt (x : Int) : I64 := ⟨wrap64 x, by unfold wrap64; omega⟩

/-- The zero value of `int64`. -/
def I64.zero : I64 := ⟨0, by decide⟩

/-- Go `a + b` on `int64`: wraps modulo `2^64`. -/
def I64.add (a b : I64) : I64 := I64.ofInt (a.val + b.val)

/-- Go `a / b` on `int64`: the run-time panic (here `none`) when `b == 0`, else
the quotient truncated toward zero, wrapped (`MinInt64 / -1` is `MinInt64`). -/
def I64.div (a b : I64) : Option I64 :=
  if b.val = 0 then none else some (I64.ofInt (Int.tdiv a.val b.val))

/-- The `uint64` value of a natural number, reduced modulo `2^64`. -/
def U64.ofNat (n : Nat) : U64 := ⟨n % 2 ^ 64, Nat.mod_lt _ (by decide)⟩

/-- Go `a + b` on `uint64`: wraps modulo `2^64`. -/
def U64.add (a b : U64) : U64 := U64.ofNat (a.val + b.val)

/-! ## Go maps from strings to `int64` -/

/-- The table of an initialised map: an association list with distinct keys. -/
abbrev Tbl := AList (fun _ : String => I64)

/-- A Go `map[string]int64`: the nil map, or an initialised table. -/
inductive GoMap where
  | nil : GoMap
  | mk (tbl : Tbl) : GoMap
  deriving DecidableEq

/-- Go `make(map[string]int64)`: an initialised map with no entry. -/
def GoMap.make : GoMap := GoMap.mk ∅

/-- Entries of a map, as `range` visits them; the nil map has none. -/
def GoMap.entries : GoMap → List (Sigma fun _ : String => I64)
  | GoMap.nil => []
  | GoMap.mk t => t.entries

/-- Keys of a map; the nil map has none. -/
def GoMap.keys : GoMap → List String
  | GoMap.nil => []
  | GoMap.mk t => t.keys

/-- Go `m[k]` as a value: the zero value when `m` is nil or `k` is absent. -/
def GoMap.get : GoMap → String → I64
  | GoMap.nil, _ => I64.zero
  | GoMap.mk t, k => (t.lookup k).getD I64.zero

/-- Go `m[k] += v`: `none` is the panic "assignment to entry in nil map". -/
def GoMap.addAt : GoMap → String → I64 → Option GoMap
  | GoMap.nil, _, _ => none
  | GoMap.mk t, k, v => some (GoMap.mk (t.insert k (I64.add ((t.lookup k).getD I64.zero) v)))

/-- Whether the map is initialised (not nil). -/
def GoMap.isInit : GoMap → Bool
  | GoMap.nil => false
  | GoMap.mk _ => true

/-! ## The window type -/

/-- Go `type CacheStat struct`. -/
structure CacheStat where
  StartBlockNum : U64
  EndBlockNum : U64
  ReadTrieCleanCacheNum : I64
  ReadTrieCleanCacheTime : I64
  ReadTrieDirtyCacheNum : I64
  ReadTrieDirtyCacheTime : I64
  ReadNumsPerPosition : GoMap
  ReadTimesPerPosition : GoMap
  ReadSizesPerPosition : GoMap
  ReadNumsPerType : GoMap
  ReadSizesPerType : GoMap
  ReadTimesPerType : GoMap
  ReadTableRequestNum : I64
  ReadTableMissNum : I64
  ReadTableTime : I64
  ReadBlockRequestNum : I64
  ReadBlockMissNum : I64
  ReadBlockTime : I64
  ReadFilterRequestNum : I64
  ReadFilterMissNum : I64
  ReadFilterTime : I64
  deriving DecidableEq

/-- Go `new(CacheStat)`: every field at its zero value, every map nil. -/
def CacheStat.zeroValue : CacheStat where
  StartBlockNum := U64.ofNat 0
  EndBlockNum := U64.ofNat 0
  ReadTrieCleanCacheNum := I64.zero
  ReadTrieCleanCacheTime := I64.zero
  ReadTrieDirtyCacheNum := I64.zero
  ReadTrieDirtyCacheTime := I64.zero
  ReadNumsPerPosition := GoMap.nil
  ReadTimesPerPosition := GoMap.nil
  ReadSizesPerPosition := GoMap.nil
  ReadNumsPerType := GoMap.nil
  ReadSizesPerType := GoMap.nil
  ReadTimesPerType := GoMap.nil
  ReadTableRequestNum := I64.zero
  ReadTableMissNum := I64.zero
  ReadTableTime := I64.zero
  ReadBlockRequestNum := I64.zero
  ReadBlockMissNum := I64.zero
  ReadBlockTime := I64.zero
  ReadFilterRequestNum := I64.zero
  ReadFilterMissNum := I64.zero
  ReadFilterTime := I64.zero

/-- Go `func NewCacheStat() *CacheStat`. -/
def NewCacheStat : CacheStat :=
  let cs := CacheStat.zeroValue
  let cs := { cs with ReadNumsPerPosition := GoMap.make }
  let cs := { cs with ReadTimesPerPosition := GoMap.make }
  let cs := { cs with ReadSizesPerPosition := GoMap.make }
  let cs := { cs with ReadNumsPerType := GoMap.make }
  let cs := { cs with ReadSizesPerType := GoMap.make }
  let cs := { cs with ReadTimesPerType := GoMap.make }
  cs

/-- The ways a run of `Add` or `Print` ends early. -/
inductive Fault where
  | exitContiguity
  | nilMapAssign
  | divideByZero
  deriving DecidableEq

/-- An early end of `Add`: the fault and the receiver as it was at that point. -/
structure Halt where
  fault : Fault
  state : CacheStat
  deriving DecidableEq

/-! ## `CacheStat.Add` -/

/-- Lines 79-86 of `Add`: adopt the start on an empty receiver, else check that
`otherCS` starts right after the receiver ends, and exit when it does not. -/
def CacheStat.Add.checkContiguity (cs otherCS : CacheStat) : Except Halt CacheStat :=
  if cs.StartBlockNum.val = 0 ∧ cs.EndBlockNum.val = 0 then
    Except.ok { cs with StartBlockNum := otherCS.StartBlockNum }
  else if U64.add cs.EndBlockNum (U64.ofNat 1) ≠ otherCS.StartBlockNum then
    Except.error ⟨Fault.exitContiguity, cs⟩
  else
    Except.ok cs

/-- Lines 89-92 of `Add`: the four trie-cache scalars. -/
def CacheStat.Add.trieScalars (cs otherCS : CacheStat) : CacheStat :=
  let cs := { cs with
    ReadTrieCleanCacheNum := I64.add cs.ReadTrieCleanCacheNum otherCS.ReadTrieCleanCacheNum }
  let cs := { cs with
    ReadTrieCleanCacheTime := I64.add cs.ReadTrieCleanCacheTime otherCS.ReadTrieCleanCacheTime }
  let cs := { cs with
    ReadTrieDirtyCacheNum := I64.add cs.ReadTrieDirtyCacheNum otherCS.ReadTrieDirtyCacheNum }
  let cs := { cs with
    ReadTrieDirtyCacheTime := I64.add cs.ReadTrieDirtyCacheTime otherCS.ReadTrieDirtyCacheTime }
  cs

/-- Lines 95-97 of `Add`: the body of the loop over `otherCS.ReadNumsPerPosition`. -/
def CacheStat.Add.positionBody (otherCS cs : CacheStat) (k : String) (v : I64) :
    Except Halt CacheStat :=
  match GoMap.addAt cs.ReadNumsPerPosition k v with
  | none => Except.error ⟨Fault.nilMapAssign, cs⟩
  | some m1 =>
    let cs1 := { cs with ReadNumsPerPosition := m1 }
    match GoMap.addAt cs1.ReadTimesPerPosition k (otherCS.ReadTimesPerPosition.get k) with
    | none => Except.error ⟨Fault.nilMapAssign, cs1⟩
    | some m2 =>
      let cs2 := { cs1 with ReadTimesPerPosition := m2 }
      match GoMap.addAt cs2.ReadSizesPerPosition k (otherCS.ReadSizesPerPosition.get k) with
      | none => Except.error ⟨Fault.nilMapAssign, cs2⟩
      | some m3 => Except.ok { cs2 with ReadSizesPerPosition := m3 }

/-- Lines 94-98 of `Add`: the loop over the entries of `otherCS.ReadNumsPerPosition`. -/
def CacheStat.Add.positionLoop (otherCS : CacheStat) :
    List (Sigma fun _ : String => I64) → CacheStat → Except Halt CacheStat
  | [], cs => Except.ok cs
  | kv :: rest, cs =>
    match CacheStat.Add.positionBody otherCS cs kv.1 kv.2 with
    | Except.error h => Except.error h
    | Except.ok cs1 => CacheStat.Add.positionLoop otherCS rest cs1

/-- Lines 100-102 of `Add`: the body of the loop over `otherCS.ReadNumsPerType`. -/
def CacheStat.Add.typeBody (otherCS cs : CacheStat) (k : String) (v : I64) :
    Except Halt CacheStat :=
  match GoMap.addAt cs.ReadNumsPerType k v with
  | none => Except.error ⟨Fault.nilMapAssign, cs⟩
  | some m1 =>
    let cs1 := { cs with ReadNumsPerType := m1 }
    match GoMap.addAt cs1.ReadSizesPerType k (otherCS.ReadSizesPerType.get k) with
    | none => Except.error ⟨Fault.nilMapAssign, cs1⟩
    | some m2 =>
      let cs2 := { cs1 with ReadSizesPerType := m2 }
      match GoMap.addAt cs2.ReadTimesPerType k (otherCS.ReadTimesPerType.get k) with
      | none => Except.error ⟨Fault.nilMapAssign, cs2⟩
      | some m3 => Except.ok { cs2 with ReadTimesPerType := m3 }

/-- Lines 99-103 of `Add`: the loop over the entries of `otherCS.ReadNumsPerType`. -/
def CacheStat.Add.typeLoop (otherCS : CacheStat) :
    List (Sigma fun _ : String => I64) → CacheStat → Except Halt CacheStat
  | [], cs => Except.ok cs
  | kv :: rest, cs =>
    match CacheStat.Add.typeBody otherCS cs kv.1 kv.2 with
    | Except.error h => Except.error h
    | Except.ok cs1 => CacheStat.Add.typeLoop otherCS rest cs1

/-- Lines 105-115 of `Add`: the nine table, block and filter scalars. -/
def CacheStat.Add.requestScalars (cs otherCS : CacheStat) : CacheStat :=
  let cs := { cs with
    ReadTableRequestNum := I64.add cs.ReadTableRequestNum otherCS.ReadTableRequestNum }
  let cs := { cs with ReadTableMissNum := I64.add cs.ReadTableMissNum otherCS.ReadTableMissNum }
  let cs := { cs with ReadTableTime := I64.add cs.ReadTableTime otherCS.ReadTableTime }
  let cs := { cs with
    ReadBlockRequestNum := I64.add cs.ReadBlockRequestNum otherCS.ReadBlockRequestNum }
  let cs := { cs with ReadBlockMissNum := I64.add cs.ReadBlockMissNum otherCS.ReadBlockMissNum }
  let cs := { cs with ReadBlockTime := I64.add cs.ReadBlockTime otherCS.ReadBlockTime }
  let cs := { cs with
    ReadFilterRequestNum := I64.add cs.ReadFilterRequestNum otherCS.ReadFilterRequestNum }
  let cs := { cs with ReadFilterMissNum := I64.add cs.ReadFilterMissNum otherCS.ReadFilterMissNum }
  let cs := { cs with ReadFilterTime := I64.add cs.ReadFilterTime otherCS.ReadFilterTime }
  cs

/-- Go `func (cs *CacheStat) Add(otherCS *CacheStat)`: the receiver after the
call, or the fault that ended the run. -/
def CacheStat.Add (cs otherCS : CacheStat) : Except Halt CacheStat :=
  match CacheStat.Add.checkContiguity cs otherCS with
  | Except.error h => Except.error h
  | Except.ok cs0 =>
    let cs1 := { cs0 with EndBlockNum := otherCS.EndBlockNum }
    let cs2 := CacheStat.Add.trieScalars cs1 otherCS
    match CacheStat.Add.positionLoop otherCS otherCS.ReadNumsPerPosition.entries cs2 with
    | Except.error h => Except.error h
    | Except.ok cs3 =>
      match CacheStat.Add.typeLoop otherCS otherCS.ReadNumsPerType.entries cs3 with
      | Except.error h => Except.error h
      | Except.ok cs4 => Except.ok (CacheStat.Add.requestScalars cs4 otherCS)

/-! ## `CacheStat.Print` -/

/-- A percentage the report computes in `float64`, `float64(num)/float64(den)*100`,
kept as its two integer operands: the floating-point division is not evaluated. -/
structure Pct where
  num : I64
  den : I64
  deriving DecidableEq

/-- The three request-tracked layers of the report. -/
inductive Layer where
  | table
  | block
  | filter
  deriving DecidableEq

/-- One `fmt.Println` of `Print`, as the quantities it prints, in the order of the
arguments. A `portion` is the percentage printed after "portion:"; a `missPct` is the
percentage that the line subtracts from 100 to print the hit rate. -/
inductive Line where
  | window (start stop : U64)
  | text (s : String)
  | position (key : String) (avg cnt time size : I64)
  | dataType (key : String) (avg cnt time size : I64)
  | diskTotal (avg cnt time size : I64)
  | readTime (layer : Layer) (avg cnt time : I64) (portion : Pct)
  | missCnt (layer : Layer) (cnt : I64)
  | hitRate (layer : Layer) (missPct : Pct)
  | requestNum (layer : Layer) (cnt : I64)
  | trieClean (avg cnt time : I64)
  | trieDirty (avg cnt time : I64)
  | trieLeveldb (avg cnt time size : I64)
  | trieTotal (avg cnt time : I64)
  | nodeHitRate (missPct : Pct)
  deriving DecidableEq

/-- The running totals `totalDiskReadCnt`, `totalDiskReadTime`, `totalDiskReadSize`. -/
structure DiskTotals where
  cnt : I64
  time : I64
  size : I64
  deriving DecidableEq

/-- Go `sort.Strings`: ascending in the lexicographic order of the characters, which is
the byte order of Go on UTF-8 strings. -/
def sortStrings (keys : List String) : List String :=
  keys.insertionSort (fun s t => s.toList ≤ t.toList)

/-- Lines 135-140 of `Print`: one line and one update of the totals per position key. -/
def CacheStat.Print.positionLoop (cs : CacheStat) :
    List String → DiskTotals → List Line → Except Fault (DiskTotals × List Line)
  | [], tot, out => Except.ok (tot, out)
  | position :: rest, tot, out =>
    match I64.div (cs.ReadTimesPerPosition.get position) (cs.ReadNumsPerPosition.get position) with
    | none => Except.error Fault.divideByZero
    | some avg =>
      let out := out ++ [Line.position position avg (cs.ReadNumsPerPosition.get position)
        (cs.ReadTimesPerPosition.get position) (cs.ReadSizesPerPosition.get position)]
      let tot := { tot with cnt := I64.add tot.cnt (cs.ReadNumsPerPosition.get position) }
      let tot := { tot with time := I64.add tot.time (cs.ReadTimesPerPosition.get position) }
      let tot := { tot with size := I64.add tot.size (cs.ReadSizesPerPosition.get position) }
      CacheStat.Print.positionLoop cs rest tot out

/-- Lines 147-149 of `Print`: one line per data-type key. -/
def CacheStat.Print.typeLoop (cs : CacheStat) : List String → List Line → Except Fault (List Line)
  | [], out => Except.ok out
  | dataType :: rest, out =>
    match I64.div (cs.ReadTimesPerType.get dataType) (cs.ReadNumsPerType.get dataType) with
    | none => Except.error Fault.divideByZero
    | some avg =>
      CacheStat.Print.typeLoop cs rest (out ++ [Line.dataType dataType avg
        (cs.ReadNumsPerType.get dataType) (cs.ReadTimesPerType.get dataType)
        (cs.ReadSizesPerType.get dataType)])

/-- Lines 151-153 of `Print`: the grand total over the position keys. -/
def CacheStat.Print.diskTotal (tot : DiskTotals) : Except Fault (List Line) :=
  if tot.cnt.val ≠ 0 then
    match I64.div tot.time tot.cnt with
    | none => Except.error Fault.divideByZero
    | some avg => Except.ok [Line.diskTotal avg tot.cnt tot.time tot.size]
  else Except.ok []

/-- Lines 155-161, 163-169 and 171-177 of `Print`: the section of one layer. -/
def CacheStat.Print.requests (layer : Layer) (requestNum missNum time totalDiskReadTime : I64) :
    Except Fault (List Line) :=
  if requestNum.val > 0 then
    match I64.div time requestNum with
    | none => Except.error Fault.divideByZero
    | some avg =>
      Except.ok [Line.readTime layer avg requestNum time ⟨time, totalDiskReadTime⟩,
        Line.missCnt layer missNum,
        Line.hitRate layer ⟨missNum, requestNum⟩]
  else Except.ok [Line.requestNum layer requestNum]

/-- Lines 184-186 of `Print`. -/
def CacheStat.Print.trieClean (cs : CacheStat) : Except Fault (List Line) :=
  if cs.ReadTrieCleanCacheNum.val > 0 then
    match I64.div cs.ReadTrieCleanCacheTime cs.ReadTrieCleanCacheNum with
    | none => Except.error Fault.divideByZero
    | some avg => Except.ok [Line.trieClean avg cs.ReadTrieCleanCacheNum cs.ReadTrieCleanCacheTime]
  else Except.ok []

/-- Lines 187-189 of `Print`. -/
def CacheStat.Print.trieDirty (cs : CacheStat) : Except Fault (List Line) :=
  if cs.ReadTrieDirtyCacheNum.val > 0 then
    match I64.div cs.ReadTrieDirtyCacheTime cs.ReadTrieDirtyCacheNum with
    | none => Except.error Fault.divideByZero
    | some avg => Except.ok [Line.trieDirty avg cs.ReadTrieDirtyCacheNum cs.ReadTrieDirtyCacheTime]
  else Except.ok []

/-- Lines 190-193 of `Print`. -/
def CacheStat.Print.trieLeveldb (cs : CacheStat) : Except Fault (List Line) :=
  if (cs.ReadNumsPerType.get "trieNode").val > 0 then
    let dataType := "trieNode"
    match I64.div (cs.ReadTimesPerType.get dataType) (cs.ReadNumsPerType.get dataType) with
    | none => Except.error Fault.divideByZero
    | some avg =>
      Except.ok [Line.trieLeveldb avg (cs.ReadNumsPerType.get dataType)
        (cs.ReadTimesPerType.get dataType) (cs.ReadSizesPerType.get dataType)]
  else Except.ok []

/-- Lines 194-199 of `Print`: the combined trie-node total. -/
def CacheStat.Print.trieTotal (cs : CacheStat) : Except Fault (List Line) :=
  let totalCnt := I64.add (I64.add cs.ReadTrieCleanCacheNum cs.ReadTrieDirtyCacheNum)
    (cs.ReadNumsPerType.get "trieNode")
  let totalTime := I64.add (I64.add cs.ReadTrieCleanCacheTime cs.ReadTrieDirtyCacheTime)
    (cs.ReadTimesPerType.get "trieNode")
  if totalCnt.val > 0 then
    match I64.div totalTime totalCnt with
    | none => Except.error Fault.divideByZero
    | some avg =>
      Except.ok [Line.trieTotal avg totalCnt totalTime,
        Line.nodeHitRate ⟨cs.ReadNumsPerType.get "trieNode", totalCnt⟩]
  else Except.ok []

/-- Go `func (cs *CacheStat) Print()`: the lines printed, in order, or the
run-time panic that ended the run. -/
def CacheStat.Print (cs : CacheStat) : Except Fault (List Line) :=
  let out := [Line.window cs.StartBlockNum cs.EndBlockNum,
    Line.text "print data read stats in LevelDB"]
  let tot : DiskTotals := ⟨I64.zero, I64.zero, I64.zero⟩
  match CacheStat.Print.positionLoop cs (sortStrings cs.ReadNumsPerPosition.keys) tot out with
  | Except.error f => Except.error f
  | Except.ok (tot, out) =>
  match CacheStat.Print.typeLoop cs (sortStrings cs.ReadNumsPerType.keys) out with
  | Except.error f => Except.error f
  | Except.ok out =>
  match CacheStat.Print.diskTotal tot with
  | Except.error f => Except.error f
  | Except.ok l1 =>
  match CacheStat.Print.requests Layer.table cs.ReadTableRequestNum cs.ReadTableMissNum
      cs.ReadTableTime tot.time with
  | Except.error f => Except.error f
  | Except.ok l2 =>
  match CacheStat.Print.requests Layer.block cs.ReadBlockRequestNum cs.ReadBlockMissNum
      cs.ReadBlockTime tot.time with
  | Except.error f => Except.error f
  | Except.ok l3 =>
  match CacheStat.Print.requests Layer.filter cs.ReadFilterRequestNum cs.ReadFilterMissNum
      cs.ReadFilterTime tot.time with
  | Except.error f => Except.error f
  | Except.ok l4 =>
  match CacheStat.Print.trieClean cs with
  | Except.error f => Except.error f
  | Except.ok l5 =>
  match CacheStat.Print.trieDirty cs with
  | Except.error f => Except.error f
  | Except.ok l6 =>
  match CacheStat.Print.trieLeveldb cs with
  | Except.error f => Except.error f
  | Except.ok l7 =>
  match CacheStat.Print.trieTotal cs with
  | Except.error f => Except.error f
  | Except.ok l8 =>
    Except.ok (out ++ l1 ++ l2 ++ l3 ++ l4
      ++ [Line.text "print trie node read stats in Geth"] ++ l5 ++ l6 ++ l7 ++ l8)

/-! ## Closed forms and predicates used in the statements and proofs -/

/-- Closed form of a `range` loop that runs `t[k] += g k v` for each entry `(k, v)`. -/
def mergeTbl (g : String → I64 → I64) (l : List (Sigma fun _ : String => I64)) (t : Tbl) : Tbl :=
  l.foldl (fun t kv => t.insert kv.1 (I64.add ((t.lookup kv.1).getD I64.zero) (g kv.1 kv.2))) t

/-- Closed form of the same loop on a Go map; a nil map is never written when the loop is empty. -/
def GoMap.mergeWith (g : String → I64 → I64) (l : List (Sigma fun _ : String => I64)) :
    GoMap → GoMap
  | GoMap.nil => GoMap.nil
  | GoMap.mk t => GoMap.mk (mergeTbl g l t)

/-- The three per-position maps of the receiver are initialised. -/
def CacheStat.positionInit (cs : CacheStat) : Prop :=
  cs.ReadNumsPerPosition.isInit = true ∧ cs.ReadTimesPerPosition.isInit = true
    ∧ cs.ReadSizesPerPosition.isInit = true

/-- The three per-type maps of the receiver are initialised. -/
def CacheStat.typeInit (cs : CacheStat) : Prop :=
  cs.ReadNumsPerType.isInit = true ∧ cs.ReadSizesPerType.isInit = true
    ∧ cs.ReadTimesPerType.isInit = true

instance (cs : CacheStat) : Decidable cs.positionInit := by
  unfold CacheStat.positionInit; infer_instance

instance (cs : CacheStat) : Decidable cs.typeInit := by
  unfold CacheStat.typeInit; infer_instance

/-- Closed form of the loop of lines 94-98. -/
def CacheStat.Add.positionMerged (otherCS : CacheStat) (l : List (Sigma fun _ : String => I64))
    (cs : CacheStat) : CacheStat :=
  { cs with
    ReadNumsPerPosition := cs.ReadNumsPerPosition.mergeWith (fun _ v => v) l
    ReadTimesPerPosition :=
      cs.ReadTimesPerPosition.mergeWith (fun k _ => otherCS.ReadTimesPerPosition.get k) l
    ReadSizesPerPosition :=
      cs.ReadSizesPerPosition.mergeWith (fun k _ => otherCS.ReadSizesPerPosition.get k) l }

/-- Closed form of the loop of lines 99-103. -/
def CacheStat.Add.typeMerged (otherCS : CacheStat) (l : List (Sigma fun _ : String => I64))
    (cs : CacheStat) : CacheStat :=
  { cs with
    ReadNumsPerType := cs.ReadNumsPerType.mergeWith (fun _ v => v) l
    ReadSizesPerType :=
      cs.ReadSizesPerType.mergeWith (fun k _ => otherCS.ReadSizesPerType.get k) l
    ReadTimesPerType :=
      cs.ReadTimesPerType.mergeWith (fun k _ => otherCS.ReadTimesPerType.get k) l }

/-- The receiver is non-empty and `otherCS` does not start right after it ends. -/
def CacheStat.Add.violation (cs otherCS : CacheStat) : Prop :=
  (cs.StartBlockNum.val ≠ 0 ∨ cs.EndBlockNum.val ≠ 0)
    ∧ otherCS.StartBlockNum.val ≠ (cs.EndBlockNum.val + 1) % 2 ^ 64

instance (cs otherCS : CacheStat) : Decidable (CacheStat.Add.violation cs otherCS) := by
  unfold CacheStat.Add.violation; infer_instance

/-- Every map `Add` assigns into is initialised: a loop with no entry assigns nothing. -/
def CacheStat.Add.writable (cs otherCS : CacheStat) : Prop :=
  (otherCS.ReadNumsPerPosition.entries = [] ∨ cs.positionInit)
    ∧ (otherCS.ReadNumsPerType.entries = [] ∨ cs.typeInit)

/-- Closed form of the receiver after an `Add` that returns. -/
def CacheStat.Add.merged (cs otherCS : CacheStat) : CacheStat :=
  let cs0 := if cs.StartBlockNum.val = 0 ∧ cs.EndBlockNum.val = 0 then
    { cs with StartBlockNum := otherCS.StartBlockNum } else cs
  let cs1 := { cs0 with EndBlockNum := otherCS.EndBlockNum }
  let cs2 := CacheStat.Add.trieScalars cs1 otherCS
  let cs3 := CacheStat.Add.positionMerged otherCS otherCS.ReadNumsPerPosition.entries cs2
  let cs4 := CacheStat.Add.typeMerged otherCS otherCS.ReadNumsPerType.entries cs3
  CacheStat.Add.requestScalars cs4 otherCS

/-- Merging the windows of a list in order into an accumulator, as a caller does with
`acc.Add(w1); acc.Add(w2); ...`: the run ends at the first fault. -/
def mergeAll : List CacheStat → CacheStat → Except Halt CacheStat
  | [], acc => Except.ok acc
  | w :: ws, acc =>
    match CacheStat.Add acc w with
    | Except.error h => Except.error h
    | Except.ok acc1 => mergeAll ws acc1

/-- Go `a / b` on `int64` for `b != 0`: the quotient truncated toward zero, wrapped. -/
def I64.quot (a b : I64) : I64 := I64.ofInt (Int.tdiv a.val b.val)

/-- No key of the per-position count map and no key of the per-type count map has count 0:
every division of the two per-key loops of `Print` is defined. -/
def CacheStat.Print.noZeroCount (cs : CacheStat) : Prop :=
  (∀ k ∈ cs.ReadNumsPerPosition.keys, (cs.ReadNumsPerPosition.get k).val ≠ 0)
    ∧ (∀ k ∈ cs.ReadNumsPerType.keys, (cs.ReadNumsPerType.get k).val ≠ 0)

instance (cs : CacheStat) : Decidable (CacheStat.Print.noZeroCount cs) := by
  unfold CacheStat.Print.noZeroCount; infer_instance

/-- The line of one position key (line 136). -/
def CacheStat.Print.positionLine (cs : CacheStat) (k : String) : Line :=
  Line.position k (I64.quot (cs.ReadTimesPerPosition.get k) (cs.ReadNumsPerPosition.get k))
    (cs.ReadNumsPerPosition.get k) (cs.ReadTimesPerPosition.get k)
    (cs.ReadSizesPerPosition.get k)

/-- The line of one data-type key (line 148). -/
def CacheStat.Print.typeLine (cs : CacheStat) (k : String) : Line :=
  Line.dataType k (I64.quot (cs.ReadTimesPerType.get k) (cs.ReadNumsPerType.get k))
    (cs.ReadNumsPerType.get k) (cs.ReadTimesPerType.get k) (cs.ReadSizesPerType.get k)

/-- The totals after the loop of lines 135-140 has visited the keys `l`. -/
def CacheStat.Print.positionTotals (cs : CacheStat) (l : List String) (tot : DiskTotals) :
    DiskTotals :=
  l.foldl (fun t k => ⟨I64.add t.cnt (cs.ReadNumsPerPosition.get k),
    I64.add t.time (cs.ReadTimesPerPosition.get k),
    I64.add t.size (cs.ReadSizesPerPosition.get k)⟩) tot

/-- The totals `Print` holds after its position loop. -/
def CacheStat.Print.diskTotals (cs : CacheStat) : DiskTotals :=
  CacheStat.Print.positionTotals cs (sortStrings cs.ReadNumsPerPosition.keys)
    ⟨I64.zero, I64.zero, I64.zero⟩

/-- The lines of lines 151-153. -/
def CacheStat.Print.diskTotalLines (tot : DiskTotals) : List Line :=
  if tot.cnt.val ≠ 0 then [Line.diskTotal (I64.quot tot.time tot.cnt) tot.cnt tot.time tot.size]
  else []

/-- The lines of the section of one layer. -/
def CacheStat.Print.requestsLines (layer : Layer)
    (requestNum missNum time totalDiskReadTime : I64) : List Line :=
  if requestNum.val > 0 then
    [Line.readTime layer (I64.quot time requestNum) requestNum time ⟨time, totalDiskReadTime⟩,
      Line.missCnt layer missNum, Line.hitRate layer ⟨missNum, requestNum⟩]
  else [Line.requestNum layer requestNum]

/-- The lines of lines 184-186. -/
def CacheStat.Print.trieCleanLines (cs : CacheStat) : List Line :=
  if cs.ReadTrieCleanCacheNum.val > 0 then
    [Line.trieClean (I64.quot cs.ReadTrieCleanCacheTime cs.ReadTrieCleanCacheNum)
      cs.ReadTrieCleanCacheNum cs.ReadTrieCleanCacheTime]
  else []

/-- The lines of lines 187-189. -/
def CacheStat.Print.trieDirtyLines (cs : CacheStat) : List Line :=
  if cs.ReadTrieDirtyCacheNum.val > 0 then
    [Line.trieDirty (I64.quot cs.ReadTrieDirtyCacheTime cs.ReadTrieDirtyCacheNum)
      cs.ReadTrieDirtyCacheNum cs.ReadTrieDirtyCacheTime]
  else []

/-- The lines of lines 190-193. -/
def CacheStat.Print.trieLeveldbLines (cs : CacheStat) : List Line :=
  if (cs.ReadNumsPerType.get "trieNode").val > 0 then
    [Line.trieLeveldb
      (I64.quot (cs.ReadTimesPerType.get "trieNode") (cs.ReadNumsPerType.get "trieNode"))
      (cs.ReadNumsPerType.get "trieNode") (cs.ReadTimesPerType.get "trieNode")
      (cs.ReadSizesPerType.get "trieNode")]
  else []

/-- The combined trie-node count `totalCnt` of line 194. -/
def CacheStat.Print.trieTotalCnt (cs : CacheStat) : I64 :=
  I64.add (I64.add cs.ReadTrieCleanCacheNum cs.ReadTrieDirtyCacheNum)
    (cs.ReadNumsPerType.get "trieNode")

/-- The combined trie-node time `totalTime` of line 195. -/
def CacheStat.Print.trieTotalTime (cs : CacheStat) : I64 :=
  I64.add (I64.add cs.ReadTrieCleanCacheTime cs.ReadTrieDirtyCacheTime)
    (cs.ReadTimesPerType.get "trieNode")

/-- The lines of lines 196-199. -/
def CacheStat.Print.trieTotalLines (cs : CacheStat) : List Line :=
  if (CacheStat.Print.trieTotalCnt cs).val > 0 then
    [Line.trieTotal (I64.quot (CacheStat.Print.trieTotalTime cs) (CacheStat.Print.trieTotalCnt cs))
      (CacheStat.Print.trieTotalCnt cs) (CacheStat.Print.trieTotalTime cs),
      Line.nodeHitRate ⟨cs.ReadNumsPerType.get "trieNode", CacheStat.Print.trieTotalCnt cs⟩]
  else []

/-- Closed form of the lines of a `Print` that returns. -/
def CacheStat.Print.report (cs : CacheStat) : List Line :=
  [Line.window cs.StartBlockNum cs.EndBlockNum, Line.text "print data read stats in LevelDB"]
    ++ (sortStrings cs.ReadNumsPerPosition.keys).map (CacheStat.Print.positionLine cs)
    ++ (sortStrings cs.ReadNumsPerType.keys).map (CacheStat.Print.typeLine cs)
    ++ CacheStat.Print.diskTotalLines (CacheStat.Print.diskTotals cs)
    ++ CacheStat.Print.requestsLines Layer.table cs.ReadTableRequestNum cs.ReadTableMissNum
        cs.ReadTableTime (CacheStat.Print.diskTotals cs).time
    ++ CacheStat.Print.requestsLines Layer.block cs.ReadBlockRequestNum cs.ReadBlockMissNum
        cs.ReadBlockTime (CacheStat.Print.diskTotals cs).time
    ++ CacheStat.Print.requestsLines Layer.filter cs.ReadFilterRequestNum cs.ReadFilterMissNum
        cs.ReadFilterTime (CacheStat.Print.diskTotals cs).time
    ++ [Line.text "print trie node read stats in Geth"]
    ++ CacheStat.Print.trieCleanLines cs
    ++ CacheStat.Print.trieDirtyLines cs
    ++ CacheStat.Print.trieLeveldbLines cs
    ++ CacheStat.Print.trieTotalLines cs

/-- The layer a line of a layer section belongs to; `none` for every other line. -/
def Line.layerOf : Line → Option Layer
  | Line.readTime layer _ _ _ _ => some layer
  | Line.missCnt layer _ => some layer
  | Line.hitRate layer _ => some layer
  | Line.requestNum layer _ => some layer
  | _ => none

/-- Whether the line is the grand total of lines 151-153. -/
def Line.isDiskTotal : Line → Bool
  | Line.diskTotal _ _ _ _ => true
  | _ => false

/-- Whether the line is one of the two lines of the combined trie-node total (lines 197-198). -/
def Line.isTrieTotal : Line → Bool
  | Line.trieTotal _ _ _ => true
  | Line.nodeHitRate _ => true
  | _ => false

/-- The request count of a layer: `ReadTableRequestNum`, `ReadBlockRequestNum` or
`ReadFilterRequestNum`. -/
def CacheStat.requestNumOf (cs : CacheStat) : Layer → I64
  | Layer.table => cs.ReadTableRequestNum
  | Layer.block => cs.ReadBlockRequestNum
  | Layer.filter => cs.ReadFilterRequestNum

/-- The miss count of a layer. -/
def CacheStat.missNumOf (cs : CacheStat) : Layer → I64
  | Layer.table => cs.ReadTableMissNum
  | Layer.block => cs.ReadBlockMissNum
  | Layer.filter => cs.ReadFilterMissNum

/-- The read time of a layer. -/
def CacheStat.readTimeOf (cs : CacheStat) : Layer → I64
  | Layer.table => cs.ReadTableTime
  | Layer.block => cs.ReadBlockTime
  | Layer.filter => cs.ReadFilterTime

/-- Sum over a list of keys of the values a map holds for them, as an integer. -/
def GoMap.sumOver (m : GoMap) (keys : List String) : Int :=
  (keys.map fun k => (m.get k).val).sum

/-- The value of a percentage in exact rational arithmetic, `num / den * 100`; `none` when
the denominator is 0, where the `float64` division gives NaN or an infinity and no number. -/
def Pct.exact (p : Pct) : Option ℚ :=
  if p.den.val = 0 then none else some ((p.num.val : ℚ) / (p.den.val : ℚ) * 100)

/-- The hit rate a line prints from its miss percentage, `100 - num / den * 100`, in exact
rational arithmetic. -/
def Pct.hitRateExact (missPct : Pct) : Option ℚ :=
  (Pct.exact missPct).map (fun x => 100 - x)

/-- The thirteen scalar counters of a window, in the order of the struct. -/
def CacheStat.scalarFields : List (CacheStat → I64) :=
  [CacheStat.ReadTrieCleanCacheNum, CacheStat.ReadTrieCleanCacheTime,
    CacheStat.ReadTrieDirtyCacheNum, CacheStat.ReadTrieDirtyCacheTime,
    CacheStat.ReadTableRequestNum, CacheStat.ReadTableMissNum, CacheStat.ReadTableTime,
    CacheStat.ReadBlockRequestNum, CacheStat.ReadBlockMissNum, CacheStat.ReadBlockTime,
    CacheStat.ReadFilterRequestNum, CacheStat.ReadFilterMissNum, CacheStat.ReadFilterTime]

/-- The six maps of a window, in the order of the struct. -/
def CacheStat.mapFields : List (CacheStat → GoMap) :=
  [CacheStat.ReadNumsPerPosition, CacheStat.ReadTimesPerPosition,
    CacheStat.ReadSizesPerPosition, CacheStat.ReadNumsPerType, CacheStat.ReadSizesPerType,
    CacheStat.ReadTimesPerType]

/-- Every count, time and byte size of the window is non-negative: the thirteen scalars
and the value of every key in the six maps (an absent key reads 0). -/
def CacheStat.nonneg (cs : CacheStat) : Prop :=
  (∀ f ∈ CacheStat.scalarFields, 0 ≤ (f cs).val)
    ∧ (∀ g ∈ CacheStat.mapFields, ∀ k, 0 ≤ ((g cs).get k).val)

/-- No sum that `Add(cs, other)` forms leaves the `int64` range upwards: for every scalar
and for every key of every map, the two values add up to less than `2^63`. -/
def CacheStat.sumsFit (cs otherCS : CacheStat) : Prop :=
  (∀ f ∈ CacheStat.scalarFields, (f cs).val + (f otherCS).val < 2 ^ 63)
    ∧ (∀ g ∈ CacheStat.mapFields, ∀ k,
        ((g cs).get k).val + ((g otherCS).get k).val < 2 ^ 63)

/-- In each of the two triples the time map and the size map have exactly the keys of the
count map. -/
def CacheStat.aligned (cs : CacheStat) : Prop :=
  ∀ k, (k ∈ cs.ReadTimesPerPosition.keys ↔ k ∈ cs.ReadNumsPerPosition.keys)
    ∧ (k ∈ cs.ReadSizesPerPosition.keys ↔ k ∈ cs.ReadNumsPerPosition.keys)
    ∧ (k ∈ cs.ReadTimesPerType.keys ↔ k ∈ cs.ReadNumsPerType.keys)
    ∧ (k ∈ cs.ReadSizesPerType.keys ↔ k ∈ cs.ReadNumsPerType.keys)

/-! ## Sample windows -/

/-- The window `[start, stop]` with initialised, empty maps and zero counters. -/
def window (start stop : Nat) : CacheStat :=
  { NewCacheStat with StartBlockNum := U64.ofNat start, EndBlockNum := U64.ofNat stop }

/-- An initialised map with the single entry `k ↦ v`. -/
def GoMap.single (k : String) (v : Int) : GoMap :=
  GoMap.mk ((∅ : Tbl).insert k (I64.ofInt v))

/-- The window `[1,10]` with one read at position `"disk"`. -/
def oneDiskRead : CacheStat :=
  { window 1 10 with ReadNumsPerPosition := GoMap.single "disk" 1 }

/-- The window `[1,10]` with 3 reads at position `"clean"` (30 ns, 300 B), 2 reads of type
`"trieNode"` and 5 table requests with 1 miss in 500 ns. -/
def cleanWindow : CacheStat :=
  { window 1 10 with
    ReadNumsPerPosition := GoMap.single "clean" 3
    ReadTimesPerPosition := GoMap.single "clean" 30
    ReadSizesPerPosition := GoMap.single "clean" 300
    ReadNumsPerType := GoMap.single "trieNode" 2
    ReadTimesPerType := GoMap.single "trieNode" 20
    ReadSizesPerType := GoMap.single "trieNode" 200
    ReadTableRequestNum := I64.ofInt 5
    ReadTableMissNum := I64.ofInt 1
    ReadTableTime := I64.ofInt 500 }

/-- The window `[11,20]` with 4 reads at position `"disk"` (40 ns, 400 B), 1 read of type
`"code"` and 2 trie nodes read from the clean cache. -/
def diskWindow : CacheStat :=
  { window 11 20 with
    ReadNumsPerPosition := GoMap.single "disk" 4
    ReadTimesPerPosition := GoMap.single "disk" 40
    ReadSizesPerPosition := GoMap.single "disk" 400
    ReadNumsPerType := GoMap.single "code" 1
    ReadTimesPerType := GoMap.single "code" 10
    ReadSizesPerType := GoMap.single "code" 100
    ReadTrieCleanCacheNum := I64.ofInt 2
    ReadTrieCleanCacheTime := I64.ofInt 20 }

/-- The window `[1,10]` whose time map has the key `"disk"` (5 ns) and whose count map has
no key. -/
def timeOnlyWindow : CacheStat :=
  { window 1 10 with ReadTimesPerPosition := GoMap.single "disk" 5 }

/-- The window `[1,10]` whose per-type size map has the key `"code"` (7 B) and whose
per-type count map has no key. -/
def sizeOnlyWindow : CacheStat :=
  { window 1 10 with ReadSizesPerType := GoMap.single "code" 7 }

/-- The window `[1,10]` whose count map has the key `"disk"` with count 0. -/
def zeroCountWindow : CacheStat :=
  { window 1 10 with ReadNumsPerPosition := GoMap.single "disk" 0 }

/-- A window with empty bounds `[0,0]` that carries counters: 3 reads at `"clean"` and 5
table requests. -/
def unboundedWindow : CacheStat :=
  { window 0 0 with
    ReadNumsPerPosition := GoMap.single "clean" 3
    ReadTimesPerPosition := GoMap.single "clean" 30
    ReadSizesPerPosition := GoMap.single "clean" 300
    ReadTableRequestNum := I64.ofInt 5 }

/-- The window `[21,30]` with 5 reads at position `"clean"` and 6 reads of type `"code"`. -/
def thirdWindow : CacheStat :=
  { window 21 30 with
    ReadNumsPerPosition := GoMap.single "clean" 5
    ReadTimesPerPosition := GoMap.single "clean" 50
    ReadSizesPerPosition := GoMap.single "clean" 500
    ReadNumsPerType := GoMap.single "code" 6
    ReadTimesPerType := GoMap.single "code" 60
    ReadSizesPerType := GoMap.single "code" 600 }

/-- The window `[1,10]` with no read at any position and 5 table requests with 1 miss in
500 ns: the total read time over the position keys is 0. -/
def tableOnlyWindow : CacheStat :=
  { window 1 10 with
    ReadTableRequestNum := I64.ofInt 5
    ReadTableMissNum := I64.ofInt 1
    ReadTableTime := I64.ofInt 500 }

/-- The window `tableOnlyWindow` with, in addition, the position key `"disk"` at count 0. -/
def zeroCountTableWindow : CacheStat :=
  { tableOnlyWindow with ReadNumsPerPosition := GoMap.single "disk" 0 }

/-- The window `[1,10]` with 2 reads at position `"disk"` (20 ns, 200 B) and the data-type
key `"code"` at count 0. -/
def zeroTypeCountWindow : CacheStat :=
  { window 1 10 with
    ReadNumsPerPosition := GoMap.single "disk" 2
    ReadTimesPerPosition := GoMap.single "disk" 20
    ReadSizesPerPosition := GoMap.single "disk" 200
    ReadNumsPerType := GoMap.single "code" 0 }

/-- The window of the specification for the combined trie metric: 3 clean-cache reads
(30 ns), 2 dirty-cache reads (20 ns) and 5 reads of type `"trieNode"` (100 ns). -/
def trieWindow : CacheStat :=
  { window 1 10 with
    ReadTrieCleanCacheNum := I64.ofInt 3
    ReadTrieCleanCacheTime := I64.ofInt 30
    ReadTrieDirtyCacheNum := I64.ofInt 2
    ReadTrieDirtyCacheTime := I64.ofInt 20
    ReadNumsPerType := GoMap.single "trieNode" 5
    ReadTimesPerType := GoMap.single "trieNode" 100 }

/-- The window `trieWindow` with, in addition, the position key `"disk"` at count 0. -/
def trieZeroCountWindow : CacheStat :=
  { trieWindow with ReadNumsPerPosition := GoMap.single "disk" 0 }

/-- The window `[1,10]` whose clean-cache count is the largest `int64`. -/
def maxCountWindow : CacheStat :=
  { window 1 10 with ReadTrieCleanCacheNum := I64.ofInt (2 ^ 63 - 1) }

/-- The window `[11,20]` with one clean-cache read. -/
def oneCleanWindow : CacheStat :=
  { window 11 20 with ReadTrieCleanCacheNum := I64.ofInt 1 }

/-- An initialised map with the two entries `k1 ↦ v1` and `k2 ↦ v2`. -/
def GoMap.pair (k1 : String) (v1 : Int) (k2 : String) (v2 : Int) : GoMap :=
  GoMap.mk (((∅ : Tbl).insert k1 (I64.ofInt v1)).insert k2 (I64.ofInt v2))

/-- The window `[1,10]` with the position keys `"a"`, read `2^63 - 1` times, and `"b"`,
read once, each in 1 ns and 1 B: the exact sum of the counts is `2^63`. -/
def overflowTotalsWindow : CacheStat :=
  { window 1 10 with
    ReadNumsPerPosition := GoMap.pair "a" (2 ^ 63 - 1) "b" 1
    ReadTimesPerPosition := GoMap.pair "a" 1 "b" 1
    ReadSizesPerPosition := GoMap.pair "a" 1 "b" 1 }

/-- The window `[1,10]` with `2^63 - 1` clean-cache reads and 1 dirty-cache read: the exact
combined count is `2^63`. -/
def overflowTrieWindow : CacheStat :=
  { window 1 10 with
    ReadTrieCleanCacheNum := I64.ofInt (2 ^ 63 - 1)
    ReadTrieDirtyCacheNum := I64.ofInt 1 }

/-- The window `[11,20]` that is populated on the same keys and scalars as `cleanWindow`:
5 reads at position `"clean"` (50 ns, 500 B), 4 reads of type `"trieNode"` (40 ns, 400 B),
7 table requests with 2 misses in 700 ns and 6 clean-cache reads in 60 ns. -/
def busyWindow : CacheStat :=
  { window 11 20 with
    ReadNumsPerPosition := GoMap.single "clean" 5
    ReadTimesPerPosition := GoMap.single "clean" 50
    ReadSizesPerPosition := GoMap.single "clean" 500
    ReadNumsPerType := GoMap.single "trieNode" 4
    ReadTimesPerType := GoMap.single "trieNode" 40
    ReadSizesPerType := GoMap.single "trieNode" 400
    ReadTableRequestNum := I64.ofInt 7
    ReadTableMissNum := I64.ofInt 2
    ReadTableTime := I64.ofInt 700
    ReadTrieCleanCacheNum := I64.ofInt 6
    ReadTrieCleanCacheTime := I64.ofInt 60 }

/-! ## Lemmas -/

theorem wrap64_range (x : Int) : -(2 ^ 63) ≤ wrap64 x ∧ wrap64 x < 2 ^ 63 := by
  unfold wrap64
  omega

theorem wrap64_of_range (x : Int) (h : -(2 ^ 63) ≤ x ∧ x < 2 ^ 63) : wrap64 x = x := by
  unfold wrap64
  omega

theorem I64.add_zero (a : I64) : I64.add a I64.zero = a := by
  apply Subtype.ext
  simp only [I64.add, I64.ofInt, I64.zero]
  rw [Int.add_zero]
  exact wrap64_of_range _ a.property

theorem I64.zero_add (a : I64) : I64.add I64.zero a = a := by
  apply Subtype.ext
  simp only [I64.add, I64.ofInt, I64.zero]
  rw [Int.zero_add]
  exact wrap64_of_range _ a.property

theorem mergeTbl_nil (g : String → I64 → I64) (t : Tbl) : mergeTbl g [] t = t := rfl

theorem mergeTbl_cons (g : String → I64 → I64) (kv : Sigma fun _ : String => I64)
    (l : List (Sigma fun _ : String => I64)) (t : Tbl) :
    mergeTbl g (kv :: l) t
      = mergeTbl g l (t.insert kv.1 (I64.add ((t.lookup kv.1).getD I64.zero) (g kv.1 kv.2))) := rfl

theorem mergeTbl_lookup (g : String → I64 → I64) (l : List (Sigma fun _ : String => I64))
    (hl : l.NodupKeys) (t : Tbl) (k : String) :
    (mergeTbl g l t).lookup k =
      match l.dlookup k with
      | some v => some (I64.add ((t.lookup k).getD I64.zero) (g k v))
      | none => t.lookup k := by
  induction l generalizing t with
  | nil => simp [mergeTbl_nil]
  | cons kv l ih =>
    obtain ⟨k0, v0⟩ := kv
    rw [List.nodupKeys_cons] at hl
    rw [mergeTbl_cons, ih hl.2]
    by_cases hk : k = k0
    · subst hk
      have hnone : l.dlookup k = none := List.dlookup_eq_none.mpr hl.1
      simp [hnone, List.dlookup_cons_eq]
    · rw [List.dlookup_cons_ne l _ hk, AList.lookup_insert_ne hk]

theorem GoMap.mergeWith_nil (g : String → I64 → I64) (m : GoMap) : m.mergeWith g [] = m := by
  cases m <;> rfl

theorem positionLoop_ok (otherCS : CacheStat) (l : List (Sigma fun _ : String => I64))
    (cs : CacheStat) (h : l = [] ∨ cs.positionInit) :
    CacheStat.Add.positionLoop otherCS l cs
      = Except.ok (CacheStat.Add.positionMerged otherCS l cs) := by
  induction l generalizing cs with
  | nil =>
    simp [CacheStat.Add.positionLoop, CacheStat.Add.positionMerged, GoMap.mergeWith_nil]
  | cons kv l ih =>
    have hinit : cs.positionInit := by
      rcases h with h | h
      · exact absurd h (List.cons_ne_nil _ _)
      · exact h
    obtain ⟨hn, ht, hs⟩ := hinit
    cases hN : cs.ReadNumsPerPosition with
    | nil => simp [hN, GoMap.isInit] at hn
    | mk a1 =>
      cases hT : cs.ReadTimesPerPosition with
      | nil => simp [hT, GoMap.isInit] at ht
      | mk a2 =>
        cases hS : cs.ReadSizesPerPosition with
        | nil => simp [hS, GoMap.isInit] at hs
        | mk a3 =>
          simp only [CacheStat.Add.positionLoop, CacheStat.Add.positionBody, hN, hT, hS,
            GoMap.addAt]
          rw [ih _ (Or.inr (by simp [CacheStat.positionInit, GoMap.isInit]))]
          simp [CacheStat.Add.positionMerged, hN, hT, hS, GoMap.mergeWith, mergeTbl_cons]

theorem positionLoop_error (otherCS : CacheStat) (kv : Sigma fun _ : String => I64)
    (l : List (Sigma fun _ : String => I64)) (cs : CacheStat) (h : ¬ cs.positionInit) :
    ∃ st, CacheStat.Add.positionLoop otherCS (kv :: l) cs
      = Except.error ⟨Fault.nilMapAssign, st⟩ := by
  cases hN : cs.ReadNumsPerPosition with
  | nil =>
    exact ⟨_, by simp only [CacheStat.Add.positionLoop, CacheStat.Add.positionBody, hN,
      GoMap.addAt]; rfl⟩
  | mk a1 =>
    cases hT : cs.ReadTimesPerPosition with
    | nil =>
      exact ⟨_, by simp only [CacheStat.Add.positionLoop, CacheStat.Add.positionBody, hN, hT,
        GoMap.addAt]; rfl⟩
    | mk a2 =>
      cases hS : cs.ReadSizesPerPosition with
      | nil =>
        exact ⟨_, by simp only [CacheStat.Add.positionLoop, CacheStat.Add.positionBody, hN, hT,
          hS, GoMap.addAt]; rfl⟩
      | mk a3 =>
        exact absurd (by simp [CacheStat.positionInit, hN, hT, hS, GoMap.isInit]) h

theorem typeLoop_ok (otherCS : CacheStat) (l : List (Sigma fun _ : String => I64))
    (cs : CacheStat) (h : l = [] ∨ cs.typeInit) :
    CacheStat.Add.typeLoop otherCS l cs
      = Except.ok (CacheStat.Add.typeMerged otherCS l cs) := by
  induction l generalizing cs with
  | nil =>
    simp [CacheStat.Add.typeLoop, CacheStat.Add.typeMerged, GoMap.mergeWith_nil]
  | cons kv l ih =>
    have hinit : cs.typeInit := by
      rcases h with h | h
      · exact absurd h (List.cons_ne_nil _ _)
      · exact h
    obtain ⟨hn, ht, hs⟩ := hinit
    cases hN : cs.ReadNumsPerType with
    | nil => simp [hN, GoMap.isInit] at hn
    | mk a1 =>
      cases hT : cs.ReadSizesPerType with
      | nil => simp [hT, GoMap.isInit] at ht
      | mk a2 =>
        cases hS : cs.ReadTimesPerType with
        | nil => simp [hS, GoMap.isInit] at hs
        | mk a3 =>
          simp only [CacheStat.Add.typeLoop, CacheStat.Add.typeBody, hN, hT, hS,
            GoMap.addAt]
          rw [ih _ (Or.inr (by simp [CacheStat.typeInit, GoMap.isInit]))]
          simp [CacheStat.Add.typeMerged, hN, hT, hS, GoMap.mergeWith, mergeTbl_cons]

theorem typeLoop_error (otherCS : CacheStat) (kv : Sigma fun _ : String => I64)
    (l : List (Sigma fun _ : String => I64)) (cs : CacheStat) (h : ¬ cs.typeInit) :
    ∃ st, CacheStat.Add.typeLoop otherCS (kv :: l) cs
      = Except.error ⟨Fault.nilMapAssign, st⟩ := by
  cases hN : cs.ReadNumsPerType with
  | nil =>
    exact ⟨_, by simp only [CacheStat.Add.typeLoop, CacheStat.Add.typeBody, hN,
      GoMap.addAt]; rfl⟩
  | mk a1 =>
    cases hT : cs.ReadSizesPerType with
    | nil =>
      exact ⟨_, by simp only [CacheStat.Add.typeLoop, CacheStat.Add.typeBody, hN, hT,
        GoMap.addAt]; rfl⟩
    | mk a2 =>
      cases hS : cs.ReadTimesPerType with
      | nil =>
        exact ⟨_, by simp only [CacheStat.Add.typeLoop, CacheStat.Add.typeBody, hN, hT,
          hS, GoMap.addAt]; rfl⟩
      | mk a3 =>
        exact absurd (by simp [CacheStat.typeInit, hN, hT, hS, GoMap.isInit]) h

theorem U64.add_one_ne_iff (a b : U64) :
    U64.add a (U64.ofNat 1) ≠ b ↔ b.val ≠ (a.val + 1) % 2 ^ 64 := by
  rw [ne_eq, ne_eq, Subtype.ext_iff]
  simp only [U64.add, U64.ofNat]
  constructor
  · intro h h2; exact h (by omega)
  · intro h h2; exact h (by omega)

theorem checkContiguity_violation (cs otherCS : CacheStat)
    (h : CacheStat.Add.violation cs otherCS) :
    CacheStat.Add.checkContiguity cs otherCS = Except.error ⟨Fault.exitContiguity, cs⟩ := by
  obtain ⟨h1, h2⟩ := h
  have hne : ¬ (cs.StartBlockNum.val = 0 ∧ cs.EndBlockNum.val = 0) := by
    rintro ⟨a, b⟩; rcases h1 with h1 | h1
    · exact h1 a
    · exact h1 b
  have h3 := (U64.add_one_ne_iff cs.EndBlockNum otherCS.StartBlockNum).mpr h2
  simp [CacheStat.Add.checkContiguity, hne, h3]

theorem checkContiguity_ok (cs otherCS : CacheStat)
    (h : ¬ CacheStat.Add.violation cs otherCS) :
    CacheStat.Add.checkContiguity cs otherCS
      = Except.ok (if cs.StartBlockNum.val = 0 ∧ cs.EndBlockNum.val = 0 then
          { cs with StartBlockNum := otherCS.StartBlockNum } else cs) := by
  by_cases he : cs.StartBlockNum.val = 0 ∧ cs.EndBlockNum.val = 0
  · simp [CacheStat.Add.checkContiguity, he]
  · have h3 : ¬ (U64.add cs.EndBlockNum (U64.ofNat 1) ≠ otherCS.StartBlockNum) := by
      intro hc
      apply h
      refine ⟨?_, (U64.add_one_ne_iff _ _).mp hc⟩
      by_contra hcon
      push_neg at hcon
      exact he hcon
    simp only [CacheStat.Add.checkContiguity, he, h3, if_false]

theorem Add_of_violation (cs otherCS : CacheStat) (h : CacheStat.Add.violation cs otherCS) :
    CacheStat.Add cs otherCS = Except.error ⟨Fault.exitContiguity, cs⟩ := by
  simp only [CacheStat.Add, checkContiguity_violation cs otherCS h]

theorem Add_of_writable (cs otherCS : CacheStat) (hv : ¬ CacheStat.Add.violation cs otherCS)
    (hw : CacheStat.Add.writable cs otherCS) :
    CacheStat.Add cs otherCS = Except.ok (CacheStat.Add.merged cs otherCS) := by
  obtain ⟨hp, ht⟩ := hw
  simp only [CacheStat.Add, checkContiguity_ok cs otherCS hv]
  rw [positionLoop_ok]
  · simp only []
    rw [typeLoop_ok]
    · rfl
    · rcases ht with ht | ht
      · exact Or.inl ht
      · right
        split <;> simpa [CacheStat.typeInit, CacheStat.Add.positionMerged,
          CacheStat.Add.trieScalars] using ht
  · rcases hp with hp | hp
    · exact Or.inl hp
    · right
      split <;> simpa [CacheStat.positionInit, CacheStat.Add.trieScalars] using hp

theorem Add_of_not_writable (cs otherCS : CacheStat) (hv : ¬ CacheStat.Add.violation cs otherCS)
    (hw : ¬ CacheStat.Add.writable cs otherCS) :
    ∃ st, CacheStat.Add cs otherCS = Except.error ⟨Fault.nilMapAssign, st⟩ := by
  simp only [CacheStat.Add, checkContiguity_ok cs otherCS hv]
  by_cases hp : otherCS.ReadNumsPerPosition.entries = [] ∨ cs.positionInit
  · have ht : ¬ (otherCS.ReadNumsPerType.entries = [] ∨ cs.typeInit) := fun h => hw ⟨hp, h⟩
    push_neg at ht
    obtain ⟨kv, l, hl⟩ := List.exists_cons_of_ne_nil ht.1
    rw [positionLoop_ok, hl]
    · simp only []
      have key := typeLoop_error otherCS kv l
        (CacheStat.Add.positionMerged otherCS otherCS.ReadNumsPerPosition.entries
          (CacheStat.Add.trieScalars
            { (if cs.StartBlockNum.val = 0 ∧ cs.EndBlockNum.val = 0 then
                { cs with StartBlockNum := otherCS.StartBlockNum } else cs) with
              EndBlockNum := otherCS.EndBlockNum } otherCS))
        (by
          intro hc; apply ht.2
          revert hc
          split <;> simp [CacheStat.typeInit, CacheStat.Add.positionMerged,
            CacheStat.Add.trieScalars])
      obtain ⟨st, hst⟩ := key
      exact ⟨st, by rw [hst]⟩
    · rcases hp with hp | hp
      · exact Or.inl hp
      · right
        split <;> simpa [CacheStat.positionInit, CacheStat.Add.trieScalars] using hp
  · push_neg at hp
    obtain ⟨kv, l, hl⟩ := List.exists_cons_of_ne_nil hp.1
    rw [hl]
    have key := positionLoop_error otherCS kv l
      (CacheStat.Add.trieScalars
        { (if cs.StartBlockNum.val = 0 ∧ cs.EndBlockNum.val = 0 then
            { cs with StartBlockNum := otherCS.StartBlockNum } else cs) with
          EndBlockNum := otherCS.EndBlockNum } otherCS)
      (by
        intro hc; apply hp.2
        revert hc
        split <;> simp [CacheStat.positionInit, CacheStat.Add.trieScalars])
    obtain ⟨st, hst⟩ := key
    exact ⟨st, by rw [hst]⟩

theorem GoMap.entries_nodupKeys (m : GoMap) : m.entries.NodupKeys := by
  cases m with
  | nil => exact List.nodupKeys_nil
  | mk t => exact t.nodupKeys

theorem GoMap.keys_eq_entries_keys (m : GoMap) : m.keys = m.entries.keys := by
  cases m <;> rfl

theorem GoMap.get_eq_dlookup (m : GoMap) (k : String) :
    m.get k = (m.entries.dlookup k).getD I64.zero := by
  cases m <;> rfl

theorem GoMap.get_of_not_mem (m : GoMap) (k : String) (h : k ∉ m.keys) : m.get k = I64.zero := by
  rw [GoMap.keys_eq_entries_keys] at h
  rw [GoMap.get_eq_dlookup, List.dlookup_eq_none.mpr h]
  rfl

theorem GoMap.dlookup_of_mem (m : GoMap) (k : String) (h : k ∈ m.keys) :
    m.entries.dlookup k = some (m.get k) := by
  rw [GoMap.keys_eq_entries_keys] at h
  rw [GoMap.get_eq_dlookup]
  cases hd : m.entries.dlookup k with
  | none => exact absurd h (List.dlookup_eq_none.mp hd)
  | some v => rfl

theorem GoMap.get_mk (t : Tbl) (k : String) :
    (GoMap.mk t).get k = (t.lookup k).getD I64.zero := rfl

theorem GoMap.get_nil (k : String) : GoMap.nil.get k = I64.zero := rfl

theorem GoMap.keys_mk (t : Tbl) : (GoMap.mk t).keys = t.keys := rfl

theorem GoMap.keys_nil : GoMap.nil.keys = [] := rfl

theorem GoMap.mergeWith_mk (g : String → I64 → I64) (l : List (Sigma fun _ : String => I64))
    (t : Tbl) : (GoMap.mk t).mergeWith g l = GoMap.mk (mergeTbl g l t) := rfl

theorem GoMap.mergeWith_nil_left (g : String → I64 → I64)
    (l : List (Sigma fun _ : String => I64)) : GoMap.nil.mergeWith g l = GoMap.nil := rfl

theorem GoMap.get_mergeWith (g : String → I64 → I64) (m src : GoMap)
    (hw : src.entries = [] ∨ m.isInit = true) (k : String) :
    (m.mergeWith g src.entries).get k
      = if k ∈ src.keys then I64.add (m.get k) (g k (src.get k)) else m.get k := by
  cases m with
  | nil =>
    have he : src.entries = [] := by
      rcases hw with hw | hw
      · exact hw
      · simp [GoMap.isInit] at hw
    have hk : k ∉ src.keys := by rw [GoMap.keys_eq_entries_keys, he]; simp
    simp [hk, GoMap.mergeWith_nil_left]
  | mk t =>
    simp only [GoMap.mergeWith_mk, GoMap.get_mk]
    rw [mergeTbl_lookup g src.entries src.entries_nodupKeys t k]
    by_cases hk : k ∈ src.keys
    · rw [GoMap.dlookup_of_mem src k hk]
      simp [hk]
    · have hn : src.entries.dlookup k = none := by
        rw [GoMap.keys_eq_entries_keys] at hk
        exact List.dlookup_eq_none.mpr hk
      rw [hn]
      simp [hk]

theorem GoMap.mem_keys_mergeWith (g : String → I64 → I64) (m src : GoMap)
    (hw : src.entries = [] ∨ m.isInit = true) (k : String) :
    k ∈ (m.mergeWith g src.entries).keys ↔ k ∈ m.keys ∨ k ∈ src.keys := by
  cases m with
  | nil =>
    have he : src.entries = [] := by
      rcases hw with hw | hw
      · exact hw
      · simp [GoMap.isInit] at hw
    have hk : k ∉ src.keys := by rw [GoMap.keys_eq_entries_keys, he]; simp
    simp [hk, GoMap.mergeWith_nil_left, GoMap.keys_nil]
  | mk t =>
    simp only [GoMap.mergeWith_mk, GoMap.keys_mk]
    rw [← AList.mem_keys, ← AList.lookup_isSome,
      mergeTbl_lookup g src.entries src.entries_nodupKeys t k]
    by_cases hk : k ∈ src.keys
    · rw [GoMap.dlookup_of_mem src k hk]
      simp [hk]
    · have hn : src.entries.dlookup k = none := by
        rw [GoMap.keys_eq_entries_keys] at hk
        exact List.dlookup_eq_none.mpr hk
      rw [hn]
      simp [hk, AList.lookup_isSome, AList.mem_keys]

theorem Add_eq_ok_iff (cs otherCS r : CacheStat) :
    CacheStat.Add cs otherCS = Except.ok r ↔
      ¬ CacheStat.Add.violation cs otherCS ∧ CacheStat.Add.writable cs otherCS
        ∧ r = CacheStat.Add.merged cs otherCS := by
  by_cases hv : CacheStat.Add.violation cs otherCS
  · rw [Add_of_violation cs otherCS hv]
    simp [hv]
  · by_cases hw : CacheStat.Add.writable cs otherCS
    · rw [Add_of_writable cs otherCS hv hw]
      simp only [Except.ok.injEq, hv, hw, not_false_eq_true, true_and]
      exact eq_comm
    · obtain ⟨st, hst⟩ := Add_of_not_writable cs otherCS hv hw
      rw [hst]
      simp [hw]

theorem Add_eq_exit_iff (cs otherCS : CacheStat) :
    (∃ st, CacheStat.Add cs otherCS = Except.error ⟨Fault.exitContiguity, st⟩)
      ↔ CacheStat.Add.violation cs otherCS := by
  by_cases hv : CacheStat.Add.violation cs otherCS
  · simp only [hv, iff_true]
    exact ⟨cs, Add_of_violation cs otherCS hv⟩
  · simp only [hv, iff_false]
    rintro ⟨st, hst⟩
    by_cases hw : CacheStat.Add.writable cs otherCS
    · rw [Add_of_writable cs otherCS hv hw] at hst
      cases hst
    · obtain ⟨st2, hst2⟩ := Add_of_not_writable cs otherCS hv hw
      rw [hst2] at hst
      cases hst

theorem merged_bounds (cs otherCS : CacheStat) :
    (CacheStat.Add.merged cs otherCS).StartBlockNum
        = (if cs.StartBlockNum.val = 0 ∧ cs.EndBlockNum.val = 0 then otherCS.StartBlockNum
            else cs.StartBlockNum)
      ∧ (CacheStat.Add.merged cs otherCS).EndBlockNum = otherCS.EndBlockNum := by
  simp only [CacheStat.Add.merged, CacheStat.Add.requestScalars, CacheStat.Add.typeMerged,
    CacheStat.Add.positionMerged, CacheStat.Add.trieScalars]
  split <;> simp

theorem merged_trie (cs otherCS : CacheStat) :
    (CacheStat.Add.merged cs otherCS).ReadTrieCleanCacheNum
        = I64.add cs.ReadTrieCleanCacheNum otherCS.ReadTrieCleanCacheNum
      ∧ (CacheStat.Add.merged cs otherCS).ReadTrieCleanCacheTime
        = I64.add cs.ReadTrieCleanCacheTime otherCS.ReadTrieCleanCacheTime
      ∧ (CacheStat.Add.merged cs otherCS).ReadTrieDirtyCacheNum
        = I64.add cs.ReadTrieDirtyCacheNum otherCS.ReadTrieDirtyCacheNum
      ∧ (CacheStat.Add.merged cs otherCS).ReadTrieDirtyCacheTime
        = I64.add cs.ReadTrieDirtyCacheTime otherCS.ReadTrieDirtyCacheTime := by
  simp only [CacheStat.Add.merged, CacheStat.Add.requestScalars, CacheStat.Add.typeMerged,
    CacheStat.Add.positionMerged, CacheStat.Add.trieScalars]
  split <;> exact ⟨rfl, rfl, rfl, rfl⟩

theorem merged_requests (cs otherCS : CacheStat) :
    (CacheStat.Add.merged cs otherCS).ReadTableRequestNum
        = I64.add cs.ReadTableRequestNum otherCS.ReadTableRequestNum
      ∧ (CacheStat.Add.merged cs otherCS).ReadTableMissNum
        = I64.add cs.ReadTableMissNum otherCS.ReadTableMissNum
      ∧ (CacheStat.Add.merged cs otherCS).ReadTableTime
        = I64.add cs.ReadTableTime otherCS.ReadTableTime
      ∧ (CacheStat.Add.merged cs otherCS).ReadBlockRequestNum
        = I64.add cs.ReadBlockRequestNum otherCS.ReadBlockRequestNum
      ∧ (CacheStat.Add.merged cs otherCS).ReadBlockMissNum
        = I64.add cs.ReadBlockMissNum otherCS.ReadBlockMissNum
      ∧ (CacheStat.Add.merged cs otherCS).ReadBlockTime
        = I64.add cs.ReadBlockTime otherCS.ReadBlockTime
      ∧ (CacheStat.Add.merged cs otherCS).ReadFilterRequestNum
        = I64.add cs.ReadFilterRequestNum otherCS.ReadFilterRequestNum
      ∧ (CacheStat.Add.merged cs otherCS).ReadFilterMissNum
        = I64.add cs.ReadFilterMissNum otherCS.ReadFilterMissNum
      ∧ (CacheStat.Add.merged cs otherCS).ReadFilterTime
        = I64.add cs.ReadFilterTime otherCS.ReadFilterTime := by
  simp only [CacheStat.Add.merged, CacheStat.Add.requestScalars, CacheStat.Add.typeMerged,
    CacheStat.Add.positionMerged, CacheStat.Add.trieScalars]
  split <;> exact ⟨rfl, rfl, rfl, rfl, rfl, rfl, rfl, rfl, rfl⟩

theorem merged_position (cs otherCS : CacheStat) :
    (CacheStat.Add.merged cs otherCS).ReadNumsPerPosition
        = cs.ReadNumsPerPosition.mergeWith (fun _ v => v) otherCS.ReadNumsPerPosition.entries
      ∧ (CacheStat.Add.merged cs otherCS).ReadTimesPerPosition
        = cs.ReadTimesPerPosition.mergeWith (fun k _ => otherCS.ReadTimesPerPosition.get k)
            otherCS.ReadNumsPerPosition.entries
      ∧ (CacheStat.Add.merged cs otherCS).ReadSizesPerPosition
        = cs.ReadSizesPerPosition.mergeWith (fun k _ => otherCS.ReadSizesPerPosition.get k)
            otherCS.ReadNumsPerPosition.entries := by
  simp only [CacheStat.Add.merged, CacheStat.Add.requestScalars, CacheStat.Add.typeMerged,
    CacheStat.Add.positionMerged, CacheStat.Add.trieScalars]
  split <;> exact ⟨rfl, rfl, rfl⟩

theorem merged_type (cs otherCS : CacheStat) :
    (CacheStat.Add.merged cs otherCS).ReadNumsPerType
        = cs.ReadNumsPerType.mergeWith (fun _ v => v) otherCS.ReadNumsPerType.entries
      ∧ (CacheStat.Add.merged cs otherCS).ReadSizesPerType
        = cs.ReadSizesPerType.mergeWith (fun k _ => otherCS.ReadSizesPerType.get k)
            otherCS.ReadNumsPerType.entries
      ∧ (CacheStat.Add.merged cs otherCS).ReadTimesPerType
        = cs.ReadTimesPerType.mergeWith (fun k _ => otherCS.ReadTimesPerType.get k)
            otherCS.ReadNumsPerType.entries := by
  simp only [CacheStat.Add.merged, CacheStat.Add.requestScalars, CacheStat.Add.typeMerged,
    CacheStat.Add.positionMerged, CacheStat.Add.trieScalars]
  split <;> exact ⟨rfl, rfl, rfl⟩

theorem GoMap.isInit_mergeWith (g : String → I64 → I64)
    (l : List (Sigma fun _ : String => I64)) (m : GoMap) :
    (m.mergeWith g l).isInit = m.isInit := by
  cases m <;> rfl

theorem merged_positionInit (cs otherCS : CacheStat) (h : cs.positionInit) :
    (CacheStat.Add.merged cs otherCS).positionInit := by
  obtain ⟨h1, h2, h3⟩ := merged_position cs otherCS
  unfold CacheStat.positionInit
  rw [h1, h2, h3, GoMap.isInit_mergeWith, GoMap.isInit_mergeWith, GoMap.isInit_mergeWith]
  exact h

theorem merged_typeInit (cs otherCS : CacheStat) (h : cs.typeInit) :
    (CacheStat.Add.merged cs otherCS).typeInit := by
  obtain ⟨h1, h2, h3⟩ := merged_type cs otherCS
  unfold CacheStat.typeInit
  rw [h1, h2, h3, GoMap.isInit_mergeWith, GoMap.isInit_mergeWith, GoMap.isInit_mergeWith]
  exact h

theorem merged_counts_get (cs otherCS : CacheStat) (hw : CacheStat.Add.writable cs otherCS)
    (k : String) :
    (CacheStat.Add.merged cs otherCS).ReadNumsPerPosition.get k
        = I64.add (cs.ReadNumsPerPosition.get k) (otherCS.ReadNumsPerPosition.get k)
      ∧ (CacheStat.Add.merged cs otherCS).ReadNumsPerType.get k
        = I64.add (cs.ReadNumsPerType.get k) (otherCS.ReadNumsPerType.get k) := by
  constructor
  · rw [(merged_position cs otherCS).1, GoMap.get_mergeWith _ _ _ (hw.1.imp id (·.1)) k]
    by_cases hk : k ∈ otherCS.ReadNumsPerPosition.keys
    · rw [if_pos hk]
    · rw [if_neg hk, GoMap.get_of_not_mem _ k hk, I64.add_zero]
  · rw [(merged_type cs otherCS).1, GoMap.get_mergeWith _ _ _ (hw.2.imp id (·.1)) k]
    by_cases hk : k ∈ otherCS.ReadNumsPerType.keys
    · rw [if_pos hk]
    · rw [if_neg hk, GoMap.get_of_not_mem _ k hk, I64.add_zero]

theorem merged_times_sizes_get (cs otherCS : CacheStat)
    (hw : CacheStat.Add.writable cs otherCS) (k : String) :
    (CacheStat.Add.merged cs otherCS).ReadTimesPerPosition.get k
        = (if k ∈ otherCS.ReadNumsPerPosition.keys then
            I64.add (cs.ReadTimesPerPosition.get k) (otherCS.ReadTimesPerPosition.get k)
          else cs.ReadTimesPerPosition.get k)
      ∧ (CacheStat.Add.merged cs otherCS).ReadSizesPerPosition.get k
        = (if k ∈ otherCS.ReadNumsPerPosition.keys then
            I64.add (cs.ReadSizesPerPosition.get k) (otherCS.ReadSizesPerPosition.get k)
          else cs.ReadSizesPerPosition.get k)
      ∧ (CacheStat.Add.merged cs otherCS).ReadTimesPerType.get k
        = (if k ∈ otherCS.ReadNumsPerType.keys then
            I64.add (cs.ReadTimesPerType.get k) (otherCS.ReadTimesPerType.get k)
          else cs.ReadTimesPerType.get k)
      ∧ (CacheStat.Add.merged cs otherCS).ReadSizesPerType.get k
        = (if k ∈ otherCS.ReadNumsPerType.keys then
            I64.add (cs.ReadSizesPerType.get k) (otherCS.ReadSizesPerType.get k)
          else cs.ReadSizesPerType.get k) := by
  obtain ⟨_, hpt, hps⟩ := merged_position cs otherCS
  obtain ⟨_, hts, htt⟩ := merged_type cs otherCS
  rw [hpt, hps, hts, htt]
  exact ⟨GoMap.get_mergeWith _ _ _ (hw.1.imp id (·.2.1)) k,
    GoMap.get_mergeWith _ _ _ (hw.1.imp id (·.2.2)) k,
    GoMap.get_mergeWith _ _ _ (hw.2.imp id (·.2.2)) k,
    GoMap.get_mergeWith _ _ _ (hw.2.imp id (·.2.1)) k⟩

theorem wrap64_add_left (x y : Int) : wrap64 (wrap64 x + y) = wrap64 (x + y) := by
  unfold wrap64
  omega

theorem fresh_not_violation (W : CacheStat) : ¬ CacheStat.Add.violation NewCacheStat W := by
  intro h
  have h1 := h.1
  revert h1
  decide

theorem fresh_writable (W : CacheStat) : CacheStat.Add.writable NewCacheStat W :=
  ⟨Or.inr (by decide), Or.inr (by decide)⟩

theorem Add_fresh (W : CacheStat) :
    CacheStat.Add NewCacheStat W = Except.ok (CacheStat.Add.merged NewCacheStat W) :=
  Add_of_writable NewCacheStat W (fresh_not_violation W) (fresh_writable W)

theorem merged_fresh_bounds (W : CacheStat) :
    (CacheStat.Add.merged NewCacheStat W).StartBlockNum = W.StartBlockNum
      ∧ (CacheStat.Add.merged NewCacheStat W).EndBlockNum = W.EndBlockNum := by
  obtain ⟨hs, he⟩ := merged_bounds NewCacheStat W
  have hempty : NewCacheStat.StartBlockNum.val = 0 ∧ NewCacheStat.EndBlockNum.val = 0 := by
    decide
  rw [if_pos hempty] at hs
  exact ⟨hs, he⟩

theorem mergeAll_chain (ws : List CacheStat) : ∀ acc : CacheStat,
    acc.positionInit → acc.typeInit →
    List.Chain (fun a b : CacheStat => b.StartBlockNum.val = a.EndBlockNum.val + 1) acc ws →
    (acc.StartBlockNum.val ≠ 0 ∨ ∀ x ∈ (acc :: ws).dropLast, x.EndBlockNum.val ≠ 0) →
    ∃ r, mergeAll ws acc = Except.ok r ∧ r.StartBlockNum = acc.StartBlockNum
      ∧ r.EndBlockNum = ((acc :: ws).getLast (List.cons_ne_nil _ _)).EndBlockNum
      ∧ (∀ k, (r.ReadNumsPerPosition.get k).val
          = wrap64 ((acc.ReadNumsPerPosition.get k).val
              + (ws.map fun w => (w.ReadNumsPerPosition.get k).val).sum))
      ∧ (∀ k, (r.ReadNumsPerType.get k).val
          = wrap64 ((acc.ReadNumsPerType.get k).val
              + (ws.map fun w => (w.ReadNumsPerType.get k).val).sum)) := by
  induction ws with
  | nil =>
    intro acc _ _ _ _
    refine ⟨acc, rfl, rfl, rfl, fun k => ?_, fun k => ?_⟩
    · simp only [List.map_nil, List.sum_nil, Int.add_zero]
      exact (wrap64_of_range _ (acc.ReadNumsPerPosition.get k).property).symm
    · simp only [List.map_nil, List.sum_nil, Int.add_zero]
      exact (wrap64_of_range _ (acc.ReadNumsPerType.get k).property).symm
  | cons w ws ih =>
    intro acc hp ht hchain hH
    rw [List.chain_cons] at hchain
    obtain ⟨hR, hrest⟩ := hchain
    have hnonempty : acc.StartBlockNum.val ≠ 0 ∨ acc.EndBlockNum.val ≠ 0 := by
      rcases hH with h | h
      · exact Or.inl h
      · exact Or.inr (h acc (by simp [List.dropLast]))
    have hv : ¬ CacheStat.Add.violation acc w := by
      rintro ⟨_, hne⟩
      apply hne
      have hlt := w.StartBlockNum.property
      omega
    have hw : CacheStat.Add.writable acc w := ⟨Or.inr hp, Or.inr ht⟩
    have hadd := Add_of_writable acc w hv hw
    obtain ⟨hs, he⟩ := merged_bounds acc w
    have hnot : ¬ (acc.StartBlockNum.val = 0 ∧ acc.EndBlockNum.val = 0) := by
      rintro ⟨a, b⟩
      rcases hnonempty with h | h
      · exact h a
      · exact h b
    rw [if_neg hnot] at hs
    have hchain1 : List.Chain
        (fun a b : CacheStat => b.StartBlockNum.val = a.EndBlockNum.val + 1)
        (CacheStat.Add.merged acc w) ws := by
      cases ws with
      | nil => exact List.Chain.nil
      | cons y ys =>
        rw [List.chain_cons] at hrest ⊢
        exact ⟨by rw [he]; exact hrest.1, hrest.2⟩
    have hH1 : (CacheStat.Add.merged acc w).StartBlockNum.val ≠ 0
        ∨ ∀ x ∈ (CacheStat.Add.merged acc w :: ws).dropLast, x.EndBlockNum.val ≠ 0 := by
      rcases hH with h | h
      · left; rw [hs]; exact h
      · right
        intro x hx
        cases ws with
        | nil => simp [List.dropLast] at hx
        | cons y ys =>
          simp only [List.dropLast_cons₂, List.mem_cons] at hx h
          rcases hx with hx | hx
          · rw [hx, he]
            exact h w (Or.inr (Or.inl rfl))
          · exact h x (Or.inr (Or.inr hx))
    obtain ⟨r, hr, hrs, hre, hrp, hrt⟩ :=
      ih (CacheStat.Add.merged acc w) (merged_positionInit acc w hp)
        (merged_typeInit acc w ht) hchain1 hH1
    refine ⟨r, ?_, hrs.trans hs, ?_, fun k => ?_, fun k => ?_⟩
    · simp only [mergeAll, hadd]
      exact hr
    · rw [hre]
      cases ws with
      | nil => simpa using he
      | cons y ys => simp [List.getLast_cons]
    · rw [hrp k, (merged_counts_get acc w hw k).1]
      simp only [I64.add, I64.ofInt, List.map_cons, List.sum_cons]
      rw [wrap64_add_left, Int.add_assoc]
    · rw [hrt k, (merged_counts_get acc w hw k).2]
      simp only [I64.add, I64.ofInt, List.map_cons, List.sum_cons]
      rw [wrap64_add_left, Int.add_assoc]

theorem I64.div_eq_none (a b : I64) (h : b.val = 0) : I64.div a b = none := by
  simp [I64.div, h]

theorem Print_positionLoop_error (cs : CacheStat) (l : List String) :
    ∀ (tot : DiskTotals) (out : List Line) (f : Fault),
      CacheStat.Print.positionLoop cs l tot out = Except.error f → f = Fault.divideByZero := by
  induction l with
  | nil => intro tot out f h; cases h
  | cons k l ih =>
    intro tot out f h
    unfold CacheStat.Print.positionLoop at h
    split at h
    · cases h; rfl
    · exact ih _ _ f h

theorem Print_positionLoop_zero (cs : CacheStat) (l : List String) :
    ∀ (tot : DiskTotals) (out : List Line),
      (∃ k ∈ l, (cs.ReadNumsPerPosition.get k).val = 0) →
      CacheStat.Print.positionLoop cs l tot out = Except.error Fault.divideByZero := by
  induction l with
  | nil => intro tot out h; obtain ⟨k, hk, _⟩ := h; cases hk
  | cons a l ih =>
    intro tot out h
    unfold CacheStat.Print.positionLoop
    split
    · rfl
    · rename_i avg hav
      apply ih
      obtain ⟨k, hk, h0⟩ := h
      rcases List.mem_cons.mp hk with hka | hkl
      · subst hka
        rw [I64.div_eq_none _ _ h0] at hav
        cases hav
      · exact ⟨k, hkl, h0⟩

theorem sortStrings_mem (l : List String) (k : String) : k ∈ sortStrings l ↔ k ∈ l :=
  (List.perm_insertionSort _ l).mem_iff

theorem Print_faults_of_zero_position_count (cs : CacheStat) (k : String)
    (hk : k ∈ cs.ReadNumsPerPosition.keys) (h0 : (cs.ReadNumsPerPosition.get k).val = 0) :
    cs.Print = Except.error Fault.divideByZero := by
  unfold CacheStat.Print
  simp only []
  rw [Print_positionLoop_zero cs _ _ _ ⟨k, (sortStrings_mem _ k).mpr hk, h0⟩]

theorem I64.div_of_ne (a b : I64) (h : b.val ≠ 0) : I64.div a b = some (I64.quot a b) := by
  simp [I64.div, I64.quot, h]

theorem Print_positionLoop_ok (cs : CacheStat) (l : List String) :
    ∀ (tot : DiskTotals) (out : List Line),
      (∀ k ∈ l, (cs.ReadNumsPerPosition.get k).val ≠ 0) →
      CacheStat.Print.positionLoop cs l tot out
        = Except.ok (CacheStat.Print.positionTotals cs l tot,
            out ++ l.map (CacheStat.Print.positionLine cs)) := by
  induction l with
  | nil => intro tot out _; simp [CacheStat.Print.positionLoop, CacheStat.Print.positionTotals]
  | cons a l ih =>
    intro tot out h
    have ha := h a (List.mem_cons_self a l)
    have hl : ∀ k ∈ l, (cs.ReadNumsPerPosition.get k).val ≠ 0 :=
      fun k hk => h k (List.mem_cons_of_mem a hk)
    simp only [CacheStat.Print.positionLoop, I64.div_of_ne _ _ ha]
    rw [ih _ _ hl]
    simp [CacheStat.Print.positionTotals, CacheStat.Print.positionLine]

theorem Print_typeLoop_ok (cs : CacheStat) (l : List String) :
    ∀ (out : List Line), (∀ k ∈ l, (cs.ReadNumsPerType.get k).val ≠ 0) →
      CacheStat.Print.typeLoop cs l out
        = Except.ok (out ++ l.map (CacheStat.Print.typeLine cs)) := by
  induction l with
  | nil => intro out _; simp [CacheStat.Print.typeLoop]
  | cons a l ih =>
    intro out h
    have ha := h a (List.mem_cons_self a l)
    have hl : ∀ k ∈ l, (cs.ReadNumsPerType.get k).val ≠ 0 :=
      fun k hk => h k (List.mem_cons_of_mem a hk)
    simp only [CacheStat.Print.typeLoop, I64.div_of_ne _ _ ha]
    rw [ih _ hl]
    simp [CacheStat.Print.typeLine]

theorem Print_typeLoop_zero (cs : CacheStat) (l : List String) :
    ∀ (out : List Line), (∃ k ∈ l, (cs.ReadNumsPerType.get k).val = 0) →
      CacheStat.Print.typeLoop cs l out = Except.error Fault.divideByZero := by
  induction l with
  | nil => intro out h; obtain ⟨k, hk, _⟩ := h; cases hk
  | cons a l ih =>
    intro out h
    unfold CacheStat.Print.typeLoop
    split
    · rfl
    · rename_i avg hav
      apply ih
      obtain ⟨k, hk, h0⟩ := h
      rcases List.mem_cons.mp hk with hka | hkl
      · subst hka
        rw [I64.div_eq_none _ _ h0] at hav
        cases hav
      · exact ⟨k, hkl, h0⟩

theorem Print_diskTotal_ok (tot : DiskTotals) :
    CacheStat.Print.diskTotal tot = Except.ok (CacheStat.Print.diskTotalLines tot) := by
  unfold CacheStat.Print.diskTotal CacheStat.Print.diskTotalLines
  by_cases h : tot.cnt.val ≠ 0
  · simp only [if_pos h, I64.div_of_ne _ _ h]
  · simp only [if_neg h]

theorem Print_requests_ok (layer : Layer) (requestNum missNum time total : I64) :
    CacheStat.Print.requests layer requestNum missNum time total
      = Except.ok (CacheStat.Print.requestsLines layer requestNum missNum time total) := by
  unfold CacheStat.Print.requests CacheStat.Print.requestsLines
  by_cases h : requestNum.val > 0
  · have hne : requestNum.val ≠ 0 := by omega
    simp only [if_pos h, I64.div_of_ne _ _ hne]
  · simp only [if_neg h]

theorem Print_trieClean_ok (cs : CacheStat) :
    CacheStat.Print.trieClean cs = Except.ok (CacheStat.Print.trieCleanLines cs) := by
  unfold CacheStat.Print.trieClean CacheStat.Print.trieCleanLines
  by_cases h : cs.ReadTrieCleanCacheNum.val > 0
  · have hne : cs.ReadTrieCleanCacheNum.val ≠ 0 := by omega
    simp only [if_pos h, I64.div_of_ne _ _ hne]
  · simp only [if_neg h]

theorem Print_trieDirty_ok (cs : CacheStat) :
    CacheStat.Print.trieDirty cs = Except.ok (CacheStat.Print.trieDirtyLines cs) := by
  unfold CacheStat.Print.trieDirty CacheStat.Print.trieDirtyLines
  by_cases h : cs.ReadTrieDirtyCacheNum.val > 0
  · have hne : cs.ReadTrieDirtyCacheNum.val ≠ 0 := by omega
    simp only [if_pos h, I64.div_of_ne _ _ hne]
  · simp only [if_neg h]

theorem Print_trieLeveldb_ok (cs : CacheStat) :
    CacheStat.Print.trieLeveldb cs = Except.ok (CacheStat.Print.trieLeveldbLines cs) := by
  unfold CacheStat.Print.trieLeveldb CacheStat.Print.trieLeveldbLines
  by_cases h : (cs.ReadNumsPerType.get "trieNode").val > 0
  · have hne : (cs.ReadNumsPerType.get "trieNode").val ≠ 0 := by omega
    simp only [if_pos h, I64.div_of_ne _ _ hne]
  · simp only [if_neg h]

theorem Print_trieTotal_ok (cs : CacheStat) :
    CacheStat.Print.trieTotal cs = Except.ok (CacheStat.Print.trieTotalLines cs) := by
  unfold CacheStat.Print.trieTotal CacheStat.Print.trieTotalLines
  by_cases h : (CacheStat.Print.trieTotalCnt cs).val > 0
  · have hne : (CacheStat.Print.trieTotalCnt cs).val ≠ 0 := by omega
    have h2 := h
    unfold CacheStat.Print.trieTotalCnt at h2
    simp only [if_pos h, if_pos h2]
    have hd := I64.div_of_ne (CacheStat.Print.trieTotalTime cs) _ hne
    unfold CacheStat.Print.trieTotalCnt CacheStat.Print.trieTotalTime at hd
    simp only [hd]
    rfl
  · have h2 := h
    unfold CacheStat.Print.trieTotalCnt at h2
    simp only [if_neg h, if_neg h2]

theorem Print_of_noZeroCount (cs : CacheStat) (h : CacheStat.Print.noZeroCount cs) :
    cs.Print = Except.ok (CacheStat.Print.report cs) := by
  obtain ⟨hp, ht⟩ := h
  have hp2 : ∀ k ∈ sortStrings cs.ReadNumsPerPosition.keys,
      (cs.ReadNumsPerPosition.get k).val ≠ 0 :=
    fun k hk => hp k ((sortStrings_mem _ k).mp hk)
  have ht2 : ∀ k ∈ sortStrings cs.ReadNumsPerType.keys,
      (cs.ReadNumsPerType.get k).val ≠ 0 :=
    fun k hk => ht k ((sortStrings_mem _ k).mp hk)
  unfold CacheStat.Print
  simp only [Print_positionLoop_ok cs _ _ _ hp2, Print_typeLoop_ok cs _ _ ht2,
    Print_diskTotal_ok, Print_requests_ok, Print_trieClean_ok, Print_trieDirty_ok,
    Print_trieLeveldb_ok, Print_trieTotal_ok]
  simp [CacheStat.Print.report, CacheStat.Print.diskTotals]

theorem Print_of_zeroCount (cs : CacheStat) (h : ¬ CacheStat.Print.noZeroCount cs) :
    cs.Print = Except.error Fault.divideByZero := by
  by_cases hp : ∀ k ∈ cs.ReadNumsPerPosition.keys, (cs.ReadNumsPerPosition.get k).val ≠ 0
  · have ht : ¬ ∀ k ∈ cs.ReadNumsPerType.keys, (cs.ReadNumsPerType.get k).val ≠ 0 :=
      fun ht => h ⟨hp, ht⟩
    push_neg at ht
    obtain ⟨k, hk, h0⟩ := ht
    have hp2 : ∀ k ∈ sortStrings cs.ReadNumsPerPosition.keys,
        (cs.ReadNumsPerPosition.get k).val ≠ 0 :=
      fun k hk => hp k ((sortStrings_mem _ k).mp hk)
    unfold CacheStat.Print
    simp only [Print_positionLoop_ok cs _ _ _ hp2]
    rw [Print_typeLoop_zero cs _ _ ⟨k, (sortStrings_mem _ k).mpr hk, h0⟩]
  · push_neg at hp
    obtain ⟨k, hk, h0⟩ := hp
    exact Print_faults_of_zero_position_count cs k hk h0

theorem filter_map_eq_nil {α β : Type} (p : β → Bool) (f : α → β) (l : List α)
    (h : ∀ a, p (f a) = false) : (l.map f).filter p = [] := by
  induction l with
  | nil => rfl
  | cons a l ih => simp [List.filter_cons, h a, ih]

theorem requestsLines_filter (L L2 : Layer) (r m t tot : I64) :
    (CacheStat.Print.requestsLines L2 r m t tot).filter (fun ln => ln.layerOf = some L)
      = if L2 = L then CacheStat.Print.requestsLines L2 r m t tot else [] := by
  unfold CacheStat.Print.requestsLines
  by_cases hL : L2 = L
  · subst hL
    split <;> simp [List.filter_cons, Line.layerOf]
  · rw [if_neg hL]
    split <;> simp [List.filter_cons, Line.layerOf, hL]

theorem report_filter_layer (cs : CacheStat) (L : Layer) :
    (CacheStat.Print.report cs).filter (fun ln => ln.layerOf = some L)
      = CacheStat.Print.requestsLines L (cs.requestNumOf L) (cs.missNumOf L) (cs.readTimeOf L)
          (CacheStat.Print.diskTotals cs).time := by
  have hpos := filter_map_eq_nil (fun ln : Line => decide (ln.layerOf = some L))
    (CacheStat.Print.positionLine cs) (sortStrings cs.ReadNumsPerPosition.keys)
    (by intro a; simp [CacheStat.Print.positionLine, Line.layerOf])
  have htyp := filter_map_eq_nil (fun ln : Line => decide (ln.layerOf = some L))
    (CacheStat.Print.typeLine cs) (sortStrings cs.ReadNumsPerType.keys)
    (by intro a; simp [CacheStat.Print.typeLine, Line.layerOf])
  have hd : (CacheStat.Print.diskTotalLines (CacheStat.Print.diskTotals cs)).filter
      (fun ln => decide (ln.layerOf = some L)) = [] := by
    unfold CacheStat.Print.diskTotalLines
    split <;> simp [List.filter_cons, Line.layerOf]
  have h1 : (CacheStat.Print.trieCleanLines cs).filter
      (fun ln => decide (ln.layerOf = some L)) = [] := by
    unfold CacheStat.Print.trieCleanLines
    split <;> simp [List.filter_cons, Line.layerOf]
  have h2 : (CacheStat.Print.trieDirtyLines cs).filter
      (fun ln => decide (ln.layerOf = some L)) = [] := by
    unfold CacheStat.Print.trieDirtyLines
    split <;> simp [List.filter_cons, Line.layerOf]
  have h3 : (CacheStat.Print.trieLeveldbLines cs).filter
      (fun ln => decide (ln.layerOf = some L)) = [] := by
    unfold CacheStat.Print.trieLeveldbLines
    split <;> simp [List.filter_cons, Line.layerOf]
  have h4 : (CacheStat.Print.trieTotalLines cs).filter
      (fun ln => decide (ln.layerOf = some L)) = [] := by
    unfold CacheStat.Print.trieTotalLines
    split <;> simp [List.filter_cons, Line.layerOf]
  have hw : ∀ (a b : U64) (s : String), [Line.window a b, Line.text s].filter
      (fun ln => decide (ln.layerOf = some L)) = [] := by
    intro a b s
    have e1 : (Line.window a b).layerOf = none := rfl
    have e2 : (Line.text s).layerOf = none := rfl
    simp only [List.filter_cons, List.filter_nil, e1, e2]
    rfl
  have hx : ∀ (s : String), [Line.text s].filter
      (fun ln => decide (ln.layerOf = some L)) = [] := by
    intro s
    have e2 : (Line.text s).layerOf = none := rfl
    simp only [List.filter_cons, List.filter_nil, e2]
    rfl
  unfold CacheStat.Print.report
  simp only [List.filter_append, hpos, htyp, hd, h1, h2, h3, h4, hw, hx,
    requestsLines_filter, List.append_nil, List.nil_append]
  cases L <;> simp [CacheStat.requestNumOf, CacheStat.missNumOf, CacheStat.readTimeOf]

theorem requestsLines_filter_const (p : Line → Bool) (L : Layer) (r m t tot : I64)
    (h1 : ∀ a b c d, p (Line.readTime L a b c d) = false)
    (h2 : ∀ a, p (Line.missCnt L a) = false) (h3 : ∀ a, p (Line.hitRate L a) = false)
    (h4 : ∀ a, p (Line.requestNum L a) = false) :
    (CacheStat.Print.requestsLines L r m t tot).filter p = [] := by
  unfold CacheStat.Print.requestsLines
  split <;> simp [List.filter_cons, h1, h2, h3, h4]

theorem report_filter_diskTotal (cs : CacheStat) :
    (CacheStat.Print.report cs).filter Line.isDiskTotal
      = CacheStat.Print.diskTotalLines (CacheStat.Print.diskTotals cs) := by
  have hpos := filter_map_eq_nil Line.isDiskTotal
    (CacheStat.Print.positionLine cs) (sortStrings cs.ReadNumsPerPosition.keys)
    (fun _ => rfl)
  have htyp := filter_map_eq_nil Line.isDiskTotal
    (CacheStat.Print.typeLine cs) (sortStrings cs.ReadNumsPerType.keys) (fun _ => rfl)
  have hd : (CacheStat.Print.diskTotalLines (CacheStat.Print.diskTotals cs)).filter
      Line.isDiskTotal = CacheStat.Print.diskTotalLines (CacheStat.Print.diskTotals cs) := by
    unfold CacheStat.Print.diskTotalLines
    split
    · simp only [List.filter_cons, List.filter_nil]; rfl
    · rfl
  have hr : ∀ (L : Layer) (r m t tot : I64),
      (CacheStat.Print.requestsLines L r m t tot).filter Line.isDiskTotal = [] :=
    fun L r m t tot => requestsLines_filter_const _ L r m t tot
      (fun _ _ _ _ => rfl) (fun _ => rfl) (fun _ => rfl) (fun _ => rfl)
  have h1 : (CacheStat.Print.trieCleanLines cs).filter Line.isDiskTotal = [] := by
    unfold CacheStat.Print.trieCleanLines
    split
    · simp only [List.filter_cons, List.filter_nil]; rfl
    · rfl
  have h2 : (CacheStat.Print.trieDirtyLines cs).filter Line.isDiskTotal = [] := by
    unfold CacheStat.Print.trieDirtyLines
    split
    · simp only [List.filter_cons, List.filter_nil]; rfl
    · rfl
  have h3 : (CacheStat.Print.trieLeveldbLines cs).filter Line.isDiskTotal = [] := by
    unfold CacheStat.Print.trieLeveldbLines
    split
    · simp only [List.filter_cons, List.filter_nil]; rfl
    · rfl
  have h4 : (CacheStat.Print.trieTotalLines cs).filter Line.isDiskTotal = [] := by
    unfold CacheStat.Print.trieTotalLines
    split
    · simp only [List.filter_cons, List.filter_nil]; rfl
    · rfl
  have hw : ∀ (a b : U64) (s : String),
      [Line.window a b, Line.text s].filter Line.isDiskTotal = [] := fun _ _ _ => rfl
  have hx : ∀ (s : String), [Line.text s].filter Line.isDiskTotal = [] := fun _ => rfl
  unfold CacheStat.Print.report
  simp only [List.filter_append, hpos, htyp, hd, hr, h1, h2, h3, h4, hw, hx,
    List.append_nil, List.nil_append]

theorem report_filter_trieTotal (cs : CacheStat) :
    (CacheStat.Print.report cs).filter Line.isTrieTotal
      = CacheStat.Print.trieTotalLines cs := by
  have hpos := filter_map_eq_nil Line.isTrieTotal
    (CacheStat.Print.positionLine cs) (sortStrings cs.ReadNumsPerPosition.keys)
    (fun _ => rfl)
  have htyp := filter_map_eq_nil Line.isTrieTotal
    (CacheStat.Print.typeLine cs) (sortStrings cs.ReadNumsPerType.keys) (fun _ => rfl)
  have hd : (CacheStat.Print.diskTotalLines (CacheStat.Print.diskTotals cs)).filter
      Line.isTrieTotal = [] := by
    unfold CacheStat.Print.diskTotalLines
    split
    · simp only [List.filter_cons, List.filter_nil]; rfl
    · rfl
  have hr : ∀ (L : Layer) (r m t tot : I64),
      (CacheStat.Print.requestsLines L r m t tot).filter Line.isTrieTotal = [] :=
    fun L r m t tot => requestsLines_filter_const _ L r m t tot
      (fun _ _ _ _ => rfl) (fun _ => rfl) (fun _ => rfl) (fun _ => rfl)
  have h1 : (CacheStat.Print.trieCleanLines cs).filter Line.isTrieTotal = [] := by
    unfold CacheStat.Print.trieCleanLines
    split
    · simp only [List.filter_cons, List.filter_nil]; rfl
    · rfl
  have h2 : (CacheStat.Print.trieDirtyLines cs).filter Line.isTrieTotal = [] := by
    unfold CacheStat.Print.trieDirtyLines
    split
    · simp only [List.filter_cons, List.filter_nil]; rfl
    · rfl
  have h3 : (CacheStat.Print.trieLeveldbLines cs).filter Line.isTrieTotal = [] := by
    unfold CacheStat.Print.trieLeveldbLines
    split
    · simp only [List.filter_cons, List.filter_nil]; rfl
    · rfl
  have h4 : (CacheStat.Print.trieTotalLines cs).filter Line.isTrieTotal
      = CacheStat.Print.trieTotalLines cs := by
    unfold CacheStat.Print.trieTotalLines
    split
    · simp only [List.filter_cons, List.filter_nil]; rfl
    · rfl
  have hw : ∀ (a b : U64) (s : String),
      [Line.window a b, Line.text s].filter Line.isTrieTotal = [] := fun _ _ _ => rfl
  have hx : ∀ (s : String), [Line.text s].filter Line.isTrieTotal = [] := fun _ => rfl
  unfold CacheStat.Print.report
  simp only [List.filter_append, hpos, htyp, hd, hr, h1, h2, h3, h4, hw, hx,
    List.append_nil, List.nil_append]

theorem positionTotals_val (cs : CacheStat) (l : List String) :
    ∀ tot : DiskTotals,
      (CacheStat.Print.positionTotals cs l tot).cnt.val
          = wrap64 (tot.cnt.val + cs.ReadNumsPerPosition.sumOver l)
        ∧ (CacheStat.Print.positionTotals cs l tot).time.val
          = wrap64 (tot.time.val + cs.ReadTimesPerPosition.sumOver l)
        ∧ (CacheStat.Print.positionTotals cs l tot).size.val
          = wrap64 (tot.size.val + cs.ReadSizesPerPosition.sumOver l) := by
  induction l with
  | nil =>
    intro tot
    simp only [CacheStat.Print.positionTotals, List.foldl_nil, GoMap.sumOver, List.map_nil,
      List.sum_nil, Int.add_zero]
    exact ⟨(wrap64_of_range _ tot.cnt.property).symm,
      (wrap64_of_range _ tot.time.property).symm, (wrap64_of_range _ tot.size.property).symm⟩
  | cons a l ih =>
    intro tot
    have h := ih ⟨I64.add tot.cnt (cs.ReadNumsPerPosition.get a),
      I64.add tot.time (cs.ReadTimesPerPosition.get a),
      I64.add tot.size (cs.ReadSizesPerPosition.get a)⟩
    simp only [CacheStat.Print.positionTotals, List.foldl_cons, GoMap.sumOver, List.map_cons,
      List.sum_cons] at h ⊢
    obtain ⟨h1, h2, h3⟩ := h
    simp only [I64.add, I64.ofInt] at h1 h2 h3
    rw [wrap64_add_left, Int.add_assoc] at h1 h2 h3
    exact ⟨h1, h2, h3⟩

theorem GoMap.sumOver_sortStrings (m : GoMap) (l : List String) :
    m.sumOver (sortStrings l) = m.sumOver l := by
  unfold GoMap.sumOver sortStrings
  exact ((List.perm_insertionSort _ l).map _).sum_eq

theorem diskTotals_val (cs : CacheStat) :
    (CacheStat.Print.diskTotals cs).cnt.val
        = wrap64 (cs.ReadNumsPerPosition.sumOver cs.ReadNumsPerPosition.keys)
      ∧ (CacheStat.Print.diskTotals cs).time.val
        = wrap64 (cs.ReadTimesPerPosition.sumOver cs.ReadNumsPerPosition.keys)
      ∧ (CacheStat.Print.diskTotals cs).size.val
        = wrap64 (cs.ReadSizesPerPosition.sumOver cs.ReadNumsPerPosition.keys) := by
  have h := positionTotals_val cs (sortStrings cs.ReadNumsPerPosition.keys)
    ⟨I64.zero, I64.zero, I64.zero⟩
  simp only [GoMap.sumOver_sortStrings] at h
  have hz : I64.zero.val = 0 := rfl
  simp only [hz, Int.zero_add] at h
  exact h

theorem Int.tdiv_bounds_of_pos (a b : Int) (hb : 0 < b) :
    (0 ≤ a → 0 ≤ Int.tdiv a b ∧ Int.tdiv a b ≤ a)
      ∧ (a < 0 → a ≤ Int.tdiv a b ∧ Int.tdiv a b ≤ 0) := by
  constructor
  · intro ha
    rw [Int.tdiv_eq_ediv ha (Int.le_of_lt hb)]
    exact ⟨Int.ediv_nonneg ha (Int.le_of_lt hb), Int.ediv_le_self b ha⟩
  · intro ha
    have hc : 0 ≤ -a := by omega
    have h1 := Int.neg_tdiv (-a) b
    rw [Int.neg_neg] at h1
    rw [h1, Int.tdiv_eq_ediv hc (Int.le_of_lt hb)]
    have h2 := Int.ediv_nonneg hc (Int.le_of_lt hb)
    have h3 := Int.ediv_le_self b hc
    omega

theorem I64.quot_val_of_pos (a b : I64) (hb : b.val > 0) :
    (I64.quot a b).val = Int.tdiv a.val b.val := by
  have h := Int.tdiv_bounds_of_pos a.val b.val hb
  have ha := a.property
  simp only [I64.quot, I64.ofInt]
  apply wrap64_of_range
  by_cases h0 : 0 ≤ a.val
  · have := h.1 h0
    omega
  · have := h.2 (by omega)
    omega

theorem mem_report_layer (cs : CacheStat) (L : Layer) (ln : Line)
    (hl : ln.layerOf = some L) :
    ln ∈ CacheStat.Print.report cs ↔
      ln ∈ CacheStat.Print.requestsLines L (cs.requestNumOf L) (cs.missNumOf L)
        (cs.readTimeOf L) (CacheStat.Print.diskTotals cs).time := by
  rw [← report_filter_layer cs L, List.mem_filter]
  simp [hl]

theorem mem_report_readTime (cs : CacheStat) (L : Layer) (avg c t : I64) (p : Pct) :
    Line.readTime L avg c t p ∈ CacheStat.Print.report cs ↔
      (cs.requestNumOf L).val > 0 ∧ avg = I64.quot (cs.readTimeOf L) (cs.requestNumOf L)
        ∧ c = cs.requestNumOf L ∧ t = cs.readTimeOf L
        ∧ p = ⟨cs.readTimeOf L, (CacheStat.Print.diskTotals cs).time⟩ := by
  rw [mem_report_layer cs L (Line.readTime L avg c t p) rfl]
  unfold CacheStat.Print.requestsLines
  by_cases h : (cs.requestNumOf L).val > 0
  · simp [h]
  · simp [h]

theorem merged_scalarFields (cs otherCS : CacheStat) :
    ∀ f ∈ CacheStat.scalarFields,
      f (CacheStat.Add.merged cs otherCS) = I64.add (f cs) (f otherCS) := by
  obtain ⟨t1, t2, t3, t4⟩ := merged_trie cs otherCS
  obtain ⟨q1, q2, q3, q4, q5, q6, q7, q8, q9⟩ := merged_requests cs otherCS
  intro f hf
  simp only [CacheStat.scalarFields, List.mem_cons, List.mem_singleton, List.mem_nil_iff,
    or_false] at hf
  rcases hf with h | h | h | h | h | h | h | h | h | h | h | h | h <;> subst h
  · exact t1
  · exact t2
  · exact t3
  · exact t4
  · exact q1
  · exact q2
  · exact q3
  · exact q4
  · exact q5
  · exact q6
  · exact q7
  · exact q8
  · exact q9

theorem I64.add_nonneg_of_fit (a b : I64) (ha : 0 ≤ a.val) (hb : 0 ≤ b.val)
    (hfit : a.val + b.val < 2 ^ 63) : 0 ≤ (I64.add a b).val := by
  have h : (I64.add a b).val = a.val + b.val := by
    simp only [I64.add, I64.ofInt]
    exact wrap64_of_range _ ⟨by omega, hfit⟩
  rw [h]
  omega

theorem merged_mapFields_nonneg (cs otherCS : CacheStat)
    (hw : CacheStat.Add.writable cs otherCS) (hc : cs.nonneg) (ho : otherCS.nonneg)
    (hfit : CacheStat.sumsFit cs otherCS) :
    ∀ g ∈ CacheStat.mapFields, ∀ k, 0 ≤ ((g (CacheStat.Add.merged cs otherCS)).get k).val := by
  intro g hg k
  obtain ⟨c1, c2⟩ := merged_counts_get cs otherCS hw k
  obtain ⟨e1, e2, e3, e4⟩ := merged_times_sizes_get cs otherCS hw k
  have key : ∀ g2 ∈ CacheStat.mapFields,
      0 ≤ (I64.add ((g2 cs).get k) ((g2 otherCS).get k)).val :=
    fun g2 h2 => I64.add_nonneg_of_fit _ _ (hc.2 g2 h2 k) (ho.2 g2 h2 k) (hfit.2 g2 h2 k)
  have keep : ∀ g2 ∈ CacheStat.mapFields, 0 ≤ ((g2 cs).get k).val :=
    fun g2 h2 => hc.2 g2 h2 k
  have hg2 := hg
  simp only [CacheStat.mapFields, List.mem_cons, List.mem_singleton, List.mem_nil_iff,
    or_false] at hg2
  rcases hg2 with h | h | h | h | h | h <;> subst h
  · rw [c1]; exact key _ hg
  · rw [e1]; split
    · exact key _ hg
    · exact keep _ hg
  · rw [e2]; split
    · exact key _ hg
    · exact keep _ hg
  · rw [c2]; exact key _ hg
  · rw [e4]; split
    · exact key _ hg
    · exact keep _ hg
  · rw [e3]; split
    · exact key _ hg
    · exact keep _ hg

theorem GoMap.make_get (k : String) : GoMap.make.get k = I64.zero := rfl

theorem GoMap.single_get (key : String) (v : Int) (k : String) :
    (GoMap.single key v).get k = if k = key then I64.ofInt v else I64.zero := by
  unfold GoMap.single
  rw [GoMap.get_mk]
  by_cases hk : k = key
  · subst hk
    rw [AList.lookup_insert, if_pos rfl]
    rfl
  · rw [AList.lookup_insert_ne hk, if_neg hk]
    rfl

/-! ## The contiguity check (C1, C2) -/

/-- C1, counterexample: on the zero-value receiver `new(CacheStat)`, whose maps are nil, and
the window `[1,10]` with one read at `"disk"`, the contiguity condition does not hold (the
receiver is empty), yet `Add` does not complete: it panics on the assignment into the nil
map, after the bounds were adopted. -/
theorem Add_nil_receiver_panics :
    ¬ ((CacheStat.zeroValue.StartBlockNum.val ≠ 0 ∨ CacheStat.zeroValue.EndBlockNum.val ≠ 0)
        ∧ oneDiskRead.StartBlockNum.val ≠ (CacheStat.zeroValue.EndBlockNum.val + 1) % 2 ^ 64)
      ∧ CacheStat.Add CacheStat.zeroValue oneDiskRead
        = Except.error ⟨Fault.nilMapAssign,
            { CacheStat.zeroValue with
              StartBlockNum := U64.ofNat 1, EndBlockNum := U64.ofNat 10 }⟩ :=
  ⟨by decide, rfl⟩

/-- C1, amended: `Add(cs, other)` signals the fatal contiguity error if and only if `cs` is
non-empty and `other.StartBlockNum != cs.EndBlockNum + 1` in `uint64` arithmetic. It
completes normally if and only if that is not the case and, for each of the two loops,
`other`'s count map has no entry or the three receiver maps the loop assigns into are
initialised. In the remaining case it panics on an assignment into a nil map. -/
theorem Add_outcome (cs otherCS : CacheStat) :
    ((∃ st, CacheStat.Add cs otherCS = Except.error ⟨Fault.exitContiguity, st⟩) ↔
        ((cs.StartBlockNum.val ≠ 0 ∨ cs.EndBlockNum.val ≠ 0)
          ∧ otherCS.StartBlockNum.val ≠ (cs.EndBlockNum.val + 1) % 2 ^ 64))
      ∧ ((∃ r, CacheStat.Add cs otherCS = Except.ok r) ↔
        (¬ ((cs.StartBlockNum.val ≠ 0 ∨ cs.EndBlockNum.val ≠ 0)
            ∧ otherCS.StartBlockNum.val ≠ (cs.EndBlockNum.val + 1) % 2 ^ 64)
          ∧ (otherCS.ReadNumsPerPosition.entries = [] ∨ cs.positionInit)
          ∧ (otherCS.ReadNumsPerType.entries = [] ∨ cs.typeInit)))
      ∧ ((∃ st, CacheStat.Add cs otherCS = Except.error ⟨Fault.nilMapAssign, st⟩) ↔
        (¬ ((cs.StartBlockNum.val ≠ 0 ∨ cs.EndBlockNum.val ≠ 0)
            ∧ otherCS.StartBlockNum.val ≠ (cs.EndBlockNum.val + 1) % 2 ^ 64)
          ∧ ¬ ((otherCS.ReadNumsPerPosition.entries = [] ∨ cs.positionInit)
            ∧ (otherCS.ReadNumsPerType.entries = [] ∨ cs.typeInit)))) := by
  refine ⟨Add_eq_exit_iff cs otherCS, ?_, ?_⟩
  · constructor
    · rintro ⟨r, hr⟩
      obtain ⟨hv, hw, _⟩ := (Add_eq_ok_iff cs otherCS r).mp hr
      exact ⟨hv, hw⟩
    · rintro ⟨hv, hw⟩
      exact ⟨_, Add_of_writable cs otherCS hv hw⟩
  · constructor
    · rintro ⟨st, hst⟩
      constructor
      · intro hv
        rw [Add_of_violation cs otherCS hv] at hst
        cases hst
      · intro hw
        by_cases hv : CacheStat.Add.violation cs otherCS
        · rw [Add_of_violation cs otherCS hv] at hst
          cases hst
        · rw [Add_of_writable cs otherCS hv hw] at hst
          cases hst
    · rintro ⟨hv, hw⟩
      exact Add_of_not_writable cs otherCS hv hw

/-- C2, counterexample: the window `[0,0]` merged into a fresh accumulator leaves it empty,
so the window `[5,9]`, which leaves a gap after `[0,0]`, is then merged without error. -/
theorem Add_gap_after_empty_window_accepted :
    CacheStat.Add NewCacheStat (window 0 0) = Except.ok (window 0 0)
      ∧ (window 5 9).StartBlockNum.val > (window 0 0).EndBlockNum.val + 1
      ∧ CacheStat.Add (window 0 0) (window 5 9) = Except.ok (window 5 9) :=
  ⟨rfl, by decide, rfl⟩

/-- C2, amended: for every non-empty window `A` (`StartBlockNum != 0` or `EndBlockNum != 0`)
and every window `B`, except when `A` ends at the largest `uint64` and `B` starts at 0:
merging `A` into a fresh accumulator succeeds, and merging `B` next signals the contiguity
error, leaving the accumulator as it was, whenever `B` leaves a gap after `A` or overlaps
`A`. -/
theorem Add_rejects_gap_and_overlap (A B : CacheStat)
    (hA : A.StartBlockNum.val ≠ 0 ∨ A.EndBlockNum.val ≠ 0)
    (hmax : A.EndBlockNum.val + 1 < 2 ^ 64 ∨ B.StartBlockNum.val ≠ 0)
    (hB : B.StartBlockNum.val > A.EndBlockNum.val + 1 ∨ B.StartBlockNum.val ≤ A.EndBlockNum.val) :
    ∃ acc, CacheStat.Add NewCacheStat A = Except.ok acc
      ∧ CacheStat.Add acc B = Except.error ⟨Fault.exitContiguity, acc⟩ := by
  have hv : ¬ CacheStat.Add.violation NewCacheStat A := by
    intro h
    have h1 := h.1
    revert h1
    decide
  have hw : CacheStat.Add.writable NewCacheStat A := ⟨Or.inr (by decide), Or.inr (by decide)⟩
  refine ⟨_, Add_of_writable NewCacheStat A hv hw, ?_⟩
  apply Add_of_violation
  obtain ⟨hs, he⟩ := merged_bounds NewCacheStat A
  have hempty : NewCacheStat.StartBlockNum.val = 0 ∧ NewCacheStat.EndBlockNum.val = 0 := by
    decide
  rw [if_pos hempty] at hs
  have hlt := B.StartBlockNum.property
  have hlt2 := A.EndBlockNum.property
  refine ⟨by rw [hs, he]; exact hA, ?_⟩
  rw [he]
  omega

/-- C2, witness: the two rejections of the specification, `[1,10]` then `[15,20]` (gap) and
`[1,10]` then `[5,9]` (overlap). -/
theorem Add_rejects_gap_and_overlap_witness :
    ((window 1 10).StartBlockNum.val ≠ 0
      ∧ (window 1 10).EndBlockNum.val + 1 < 2 ^ 64
      ∧ (window 15 20).StartBlockNum.val > (window 1 10).EndBlockNum.val + 1
      ∧ ∃ acc, CacheStat.Add NewCacheStat (window 1 10) = Except.ok acc
        ∧ CacheStat.Add acc (window 15 20) = Except.error ⟨Fault.exitContiguity, acc⟩)
    ∧ ((window 5 9).StartBlockNum.val ≤ (window 1 10).EndBlockNum.val
      ∧ ∃ acc, CacheStat.Add NewCacheStat (window 1 10) = Except.ok acc
        ∧ CacheStat.Add acc (window 5 9) = Except.error ⟨Fault.exitContiguity, acc⟩) :=
  ⟨⟨by decide, by decide, by decide,
      Add_rejects_gap_and_overlap (window 1 10) (window 15 20)
        (Or.inl (by decide)) (Or.inl (by decide)) (Or.inl (by decide))⟩,
    ⟨by decide,
      Add_rejects_gap_and_overlap (window 1 10) (window 5 9)
        (Or.inl (by decide)) (Or.inl (by decide)) (Or.inr (by decide))⟩⟩

/-! ## What a completed merge leaves in the receiver (C3, C4, C5, C9) -/

/-- C3: when `Add(cs, other)` completes, the `EndBlockNum` of the receiver is
`other.EndBlockNum`, and its `StartBlockNum` is `other.StartBlockNum` if the receiver was
empty before (both bounds 0) and its previous value otherwise. -/
theorem Add_bounds (cs otherCS r : CacheStat) (h : CacheStat.Add cs otherCS = Except.ok r) :
    r.EndBlockNum = otherCS.EndBlockNum
      ∧ ((cs.StartBlockNum.val = 0 ∧ cs.EndBlockNum.val = 0) →
          r.StartBlockNum = otherCS.StartBlockNum)
      ∧ (¬ (cs.StartBlockNum.val = 0 ∧ cs.EndBlockNum.val = 0) →
          r.StartBlockNum = cs.StartBlockNum) := by
  obtain ⟨_, _, hr⟩ := (Add_eq_ok_iff cs otherCS r).mp h
  obtain ⟨hs, he⟩ := merged_bounds cs otherCS
  subst hr
  refine ⟨he, fun hc => ?_, fun hc => ?_⟩
  · rw [hs, if_pos hc]
  · rw [hs, if_neg hc]

/-- C3, witness: `[11,20]` merged into the non-empty `[1,10]` gives `[1,20]`. -/
theorem Add_bounds_witness :
    CacheStat.Add (window 1 10) (window 11 20) = Except.ok (window 1 20)
      ∧ (window 1 20).EndBlockNum = (window 11 20).EndBlockNum
      ∧ (((window 1 10).StartBlockNum.val = 0 ∧ (window 1 10).EndBlockNum.val = 0) →
          (window 1 20).StartBlockNum = (window 11 20).StartBlockNum)
      ∧ (¬ ((window 1 10).StartBlockNum.val = 0 ∧ (window 1 10).EndBlockNum.val = 0) →
          (window 1 20).StartBlockNum = (window 1 10).StartBlockNum) :=
  ⟨rfl, Add_bounds (window 1 10) (window 11 20) (window 1 20) rfl⟩

/-- C4: when `Add(cs, other)` completes, each of the thirteen scalar counters of the
receiver is its previous value plus the value in `other`, and for every key `k` the
per-position and per-type counts are the previous value plus the value in `other` (an
absent key, or a nil map, counting as 0); the sums are `int64` sums, wrapping modulo
`2^64` (last conjunct). -/
theorem Add_counters (cs otherCS r : CacheStat) (h : CacheStat.Add cs otherCS = Except.ok r) :
    r.ReadTrieCleanCacheNum = I64.add cs.ReadTrieCleanCacheNum otherCS.ReadTrieCleanCacheNum
      ∧ r.ReadTrieCleanCacheTime
        = I64.add cs.ReadTrieCleanCacheTime otherCS.ReadTrieCleanCacheTime
      ∧ r.ReadTrieDirtyCacheNum = I64.add cs.ReadTrieDirtyCacheNum otherCS.ReadTrieDirtyCacheNum
      ∧ r.ReadTrieDirtyCacheTime
        = I64.add cs.ReadTrieDirtyCacheTime otherCS.ReadTrieDirtyCacheTime
      ∧ r.ReadTableRequestNum = I64.add cs.ReadTableRequestNum otherCS.ReadTableRequestNum
      ∧ r.ReadTableMissNum = I64.add cs.ReadTableMissNum otherCS.ReadTableMissNum
      ∧ r.ReadTableTime = I64.add cs.ReadTableTime otherCS.ReadTableTime
      ∧ r.ReadBlockRequestNum = I64.add cs.ReadBlockRequestNum otherCS.ReadBlockRequestNum
      ∧ r.ReadBlockMissNum = I64.add cs.ReadBlockMissNum otherCS.ReadBlockMissNum
      ∧ r.ReadBlockTime = I64.add cs.ReadBlockTime otherCS.ReadBlockTime
      ∧ r.ReadFilterRequestNum = I64.add cs.ReadFilterRequestNum otherCS.ReadFilterRequestNum
      ∧ r.ReadFilterMissNum = I64.add cs.ReadFilterMissNum otherCS.ReadFilterMissNum
      ∧ r.ReadFilterTime = I64.add cs.ReadFilterTime otherCS.ReadFilterTime
      ∧ (∀ k, r.ReadNumsPerPosition.get k
          = I64.add (cs.ReadNumsPerPosition.get k) (otherCS.ReadNumsPerPosition.get k))
      ∧ (∀ k, r.ReadNumsPerType.get k
          = I64.add (cs.ReadNumsPerType.get k) (otherCS.ReadNumsPerType.get k))
      ∧ (∀ a b : I64, (I64.add a b).val = (a.val + b.val + 2 ^ 63) % 2 ^ 64 - 2 ^ 63) := by
  obtain ⟨_, hw, hr⟩ := (Add_eq_ok_iff cs otherCS r).mp h
  subst hr
  obtain ⟨t1, t2, t3, t4⟩ := merged_trie cs otherCS
  obtain ⟨q1, q2, q3, q4, q5, q6, q7, q8, q9⟩ := merged_requests cs otherCS
  exact ⟨t1, t2, t3, t4, q1, q2, q3, q4, q5, q6, q7, q8, q9,
    fun k => (merged_counts_get cs otherCS hw k).1,
    fun k => (merged_counts_get cs otherCS hw k).2, fun _ _ => rfl⟩

/-- C4, witness: `[11,20]` with reads at `"disk"` merged into `[1,10]` with reads at
`"clean"` and five table requests. -/
theorem Add_counters_witness :
    CacheStat.Add cleanWindow diskWindow
        = Except.ok (CacheStat.Add.merged cleanWindow diskWindow)
      ∧ (CacheStat.Add.merged cleanWindow diskWindow).ReadTableRequestNum = I64.ofInt 5
      ∧ (CacheStat.Add.merged cleanWindow diskWindow).ReadTrieCleanCacheNum = I64.ofInt 2
      ∧ (CacheStat.Add.merged cleanWindow diskWindow).ReadNumsPerPosition.get "disk"
        = I64.ofInt 4
      ∧ (CacheStat.Add.merged cleanWindow diskWindow).ReadNumsPerPosition.get "clean"
        = I64.ofInt 3 := by
  have h := Add_counters cleanWindow diskWindow (CacheStat.Add.merged cleanWindow diskWindow) rfl
  obtain ⟨t1, _, _, _, q1, _, _, _, _, _, _, _, _, hp, _, _⟩ := h
  exact ⟨rfl, q1.trans (by decide), t1.trans (by decide), (hp "disk").trans (by decide),
    (hp "clean").trans (by decide)⟩

/-- C5, counterexample: the window `[1,10]` has the key `"disk"` in its time map (5 ns) and
no key in its count map. Merged into a fresh accumulator it leaves the time entry of the
receiver at 0, not at 0 + 5. -/
theorem Add_time_only_key_not_merged :
    CacheStat.Add NewCacheStat timeOnlyWindow = Except.ok (window 1 10)
      ∧ (window 1 10).ReadTimesPerPosition.get "disk" = I64.zero
      ∧ I64.add (NewCacheStat.ReadTimesPerPosition.get "disk")
          (timeOnlyWindow.ReadTimesPerPosition.get "disk") = I64.ofInt 5
      ∧ (window 1 10).ReadTimesPerPosition.get "disk"
        ≠ I64.add (NewCacheStat.ReadTimesPerPosition.get "disk")
          (timeOnlyWindow.ReadTimesPerPosition.get "disk") :=
  ⟨rfl, by decide, by decide, by decide⟩

/-- C5, amended: when `Add(cs, other)` completes, then for every key `k` of the count map
of `other` (`ReadNumsPerPosition`, respectively `ReadNumsPerType`) the time and size
entries of the receiver are the previous value plus the value in `other` (an absent key
counting as 0), and for every key that is not in that count map the time and size entries
of the receiver are unchanged. -/
theorem Add_times_sizes (cs otherCS r : CacheStat)
    (h : CacheStat.Add cs otherCS = Except.ok r) (k : String) :
    (k ∈ otherCS.ReadNumsPerPosition.keys →
        r.ReadTimesPerPosition.get k
          = I64.add (cs.ReadTimesPerPosition.get k) (otherCS.ReadTimesPerPosition.get k)
        ∧ r.ReadSizesPerPosition.get k
          = I64.add (cs.ReadSizesPerPosition.get k) (otherCS.ReadSizesPerPosition.get k))
      ∧ (k ∉ otherCS.ReadNumsPerPosition.keys →
        r.ReadTimesPerPosition.get k = cs.ReadTimesPerPosition.get k
        ∧ r.ReadSizesPerPosition.get k = cs.ReadSizesPerPosition.get k)
      ∧ (k ∈ otherCS.ReadNumsPerType.keys →
        r.ReadTimesPerType.get k
          = I64.add (cs.ReadTimesPerType.get k) (otherCS.ReadTimesPerType.get k)
        ∧ r.ReadSizesPerType.get k
          = I64.add (cs.ReadSizesPerType.get k) (otherCS.ReadSizesPerType.get k))
      ∧ (k ∉ otherCS.ReadNumsPerType.keys →
        r.ReadTimesPerType.get k = cs.ReadTimesPerType.get k
        ∧ r.ReadSizesPerType.get k = cs.ReadSizesPerType.get k) := by
  obtain ⟨_, hw, hr⟩ := (Add_eq_ok_iff cs otherCS r).mp h
  subst hr
  obtain ⟨hpt, hps, htt, hts⟩ := merged_times_sizes_get cs otherCS hw k
  rw [hpt, hps, htt, hts]
  refine ⟨fun hk => ?_, fun hk => ?_, fun hk => ?_, fun hk => ?_⟩
  · rw [if_pos hk, if_pos hk]; exact ⟨rfl, rfl⟩
  · rw [if_neg hk, if_neg hk]; exact ⟨rfl, rfl⟩
  · rw [if_pos hk, if_pos hk]; exact ⟨rfl, rfl⟩
  · rw [if_neg hk, if_neg hk]; exact ⟨rfl, rfl⟩

/-- C5, witness: `"disk"` is a key of the count map of `[11,20]`, and its time entry, 40 ns,
is added to the absent (0) entry of `[1,10]`. -/
theorem Add_times_sizes_witness :
    CacheStat.Add cleanWindow diskWindow
        = Except.ok (CacheStat.Add.merged cleanWindow diskWindow)
      ∧ "disk" ∈ diskWindow.ReadNumsPerPosition.keys
      ∧ (CacheStat.Add.merged cleanWindow diskWindow).ReadTimesPerPosition.get "disk"
        = I64.ofInt 40
      ∧ "clean" ∉ diskWindow.ReadNumsPerPosition.keys
      ∧ (CacheStat.Add.merged cleanWindow diskWindow).ReadSizesPerPosition.get "clean"
        = I64.ofInt 300 := by
  have h1 := Add_times_sizes cleanWindow diskWindow
    (CacheStat.Add.merged cleanWindow diskWindow) rfl "disk"
  have h2 := Add_times_sizes cleanWindow diskWindow
    (CacheStat.Add.merged cleanWindow diskWindow) rfl "clean"
  exact ⟨rfl, by decide, (h1.1 (by decide)).1.trans (by decide), by decide,
    (h2.2.1 (by decide)).2.trans (by decide)⟩

/-- C9: when `Add(cs, other)` completes, the key set of the per-position count map of the
receiver (and likewise of the per-type count map) is the union of its previous key set and
the key set of `other`; a key of the receiver that `other` lacks keeps the value it had in
the receiver, and a key of `other` that the receiver lacked gets the value it has in
`other`. -/
theorem Add_key_union (cs otherCS r : CacheStat) (h : CacheStat.Add cs otherCS = Except.ok r)
    (k : String) :
    (k ∈ r.ReadNumsPerPosition.keys
        ↔ k ∈ cs.ReadNumsPerPosition.keys ∨ k ∈ otherCS.ReadNumsPerPosition.keys)
      ∧ (k ∈ cs.ReadNumsPerPosition.keys → k ∉ otherCS.ReadNumsPerPosition.keys →
        r.ReadNumsPerPosition.get k = cs.ReadNumsPerPosition.get k)
      ∧ (k ∉ cs.ReadNumsPerPosition.keys → k ∈ otherCS.ReadNumsPerPosition.keys →
        r.ReadNumsPerPosition.get k = otherCS.ReadNumsPerPosition.get k)
      ∧ (k ∈ r.ReadNumsPerType.keys
        ↔ k ∈ cs.ReadNumsPerType.keys ∨ k ∈ otherCS.ReadNumsPerType.keys)
      ∧ (k ∈ cs.ReadNumsPerType.keys → k ∉ otherCS.ReadNumsPerType.keys →
        r.ReadNumsPerType.get k = cs.ReadNumsPerType.get k)
      ∧ (k ∉ cs.ReadNumsPerType.keys → k ∈ otherCS.ReadNumsPerType.keys →
        r.ReadNumsPerType.get k = otherCS.ReadNumsPerType.get k) := by
  obtain ⟨_, hw, hr⟩ := (Add_eq_ok_iff cs otherCS r).mp h
  subst hr
  have hp := (merged_position cs otherCS).1
  have ht := (merged_type cs otherCS).1
  have wp := GoMap.get_mergeWith (fun _ v => v) cs.ReadNumsPerPosition
    otherCS.ReadNumsPerPosition (hw.1.imp id (·.1)) k
  have wt := GoMap.get_mergeWith (fun _ v => v) cs.ReadNumsPerType
    otherCS.ReadNumsPerType (hw.2.imp id (·.1)) k
  rw [hp, ht]
  refine ⟨GoMap.mem_keys_mergeWith _ _ _ (hw.1.imp id (·.1)) k, fun _ hk => ?_,
    fun hc hk => ?_, GoMap.mem_keys_mergeWith _ _ _ (hw.2.imp id (·.1)) k, fun _ hk => ?_,
    fun hc hk => ?_⟩
  · rw [wp, if_neg hk]
  · rw [wp, if_pos hk, GoMap.get_of_not_mem _ k hc, I64.zero_add]
  · rw [wt, if_neg hk]
  · rw [wt, if_pos hk, GoMap.get_of_not_mem _ k hc, I64.zero_add]

/-- C9, witness: a window with the only position key `"clean"` (count 3) merged with a
window with the only position key `"disk"` (count 4) has both keys, with counts 3 and 4. -/
theorem Add_key_union_witness :
    CacheStat.Add cleanWindow diskWindow
        = Except.ok (CacheStat.Add.merged cleanWindow diskWindow)
      ∧ cleanWindow.ReadNumsPerPosition.keys = ["clean"]
      ∧ diskWindow.ReadNumsPerPosition.keys = ["disk"]
      ∧ "clean" ∈ (CacheStat.Add.merged cleanWindow diskWindow).ReadNumsPerPosition.keys
      ∧ "disk" ∈ (CacheStat.Add.merged cleanWindow diskWindow).ReadNumsPerPosition.keys
      ∧ (CacheStat.Add.merged cleanWindow diskWindow).ReadNumsPerPosition.get "clean"
        = I64.ofInt 3
      ∧ (CacheStat.Add.merged cleanWindow diskWindow).ReadNumsPerPosition.get "disk"
        = I64.ofInt 4 := by
  have h1 := Add_key_union cleanWindow diskWindow
    (CacheStat.Add.merged cleanWindow diskWindow) rfl "clean"
  have h2 := Add_key_union cleanWindow diskWindow
    (CacheStat.Add.merged cleanWindow diskWindow) rfl "disk"
  exact ⟨rfl, by decide, by decide, h1.1.mpr (Or.inl (by decide)),
    h2.1.mpr (Or.inr (by decide)), (h1.2.1 (by decide) (by decide)).trans (by decide),
    (h2.2.2.1 (by decide) (by decide)).trans (by decide)⟩

/-! ## The fresh window as an identity (C6, C7) -/

/-- C6, counterexample: the window `[1,10]` has the key `"code"` in its per-type size map
(7 B) and no key in its per-type count map. Merged into a fresh accumulator it gives a
window whose size entry for `"code"` is 0, not 7. -/
theorem Add_into_fresh_drops_size_only_key :
    CacheStat.Add NewCacheStat sizeOnlyWindow = Except.ok (window 1 10)
      ∧ (window 1 10).ReadSizesPerType.get "code" = I64.zero
      ∧ sizeOnlyWindow.ReadSizesPerType.get "code" = I64.ofInt 7
      ∧ (window 1 10).ReadSizesPerType.get "code" ≠ sizeOnlyWindow.ReadSizesPerType.get "code" :=
  ⟨rfl, by decide, by decide, by decide⟩

/-- C6, amended: `NewCacheStat()` has zero bounds, zero scalars and six initialised empty
maps, and for every window `W` merging `W` into it completes and gives a window with the
bounds of `W`, the thirteen scalar counters of `W`, the same count as `W` for every key of
the two count maps, and the same time and size as `W` for every key of the corresponding
count map of `W`; a key outside that count map has time and size 0 in the result. So the
result has the same value as `W` for every key of all six maps whenever the time and size
maps of `W` have no key outside the corresponding count map. -/
theorem Add_into_fresh (W : CacheStat) :
    (NewCacheStat.StartBlockNum.val = 0 ∧ NewCacheStat.EndBlockNum.val = 0
      ∧ NewCacheStat.ReadTrieCleanCacheNum = I64.zero
      ∧ NewCacheStat.ReadTrieCleanCacheTime = I64.zero
      ∧ NewCacheStat.ReadTrieDirtyCacheNum = I64.zero
      ∧ NewCacheStat.ReadTrieDirtyCacheTime = I64.zero
      ∧ NewCacheStat.ReadTableRequestNum = I64.zero ∧ NewCacheStat.ReadTableMissNum = I64.zero
      ∧ NewCacheStat.ReadTableTime = I64.zero
      ∧ NewCacheStat.ReadBlockRequestNum = I64.zero ∧ NewCacheStat.ReadBlockMissNum = I64.zero
      ∧ NewCacheStat.ReadBlockTime = I64.zero
      ∧ NewCacheStat.ReadFilterRequestNum = I64.zero ∧ NewCacheStat.ReadFilterMissNum = I64.zero
      ∧ NewCacheStat.ReadFilterTime = I64.zero
      ∧ NewCacheStat.ReadNumsPerPosition = GoMap.mk ∅
      ∧ NewCacheStat.ReadTimesPerPosition = GoMap.mk ∅
      ∧ NewCacheStat.ReadSizesPerPosition = GoMap.mk ∅
      ∧ NewCacheStat.ReadNumsPerType = GoMap.mk ∅
      ∧ NewCacheStat.ReadSizesPerType = GoMap.mk ∅
      ∧ NewCacheStat.ReadTimesPerType = GoMap.mk ∅)
    ∧ ∃ r, CacheStat.Add NewCacheStat W = Except.ok r
      ∧ r.StartBlockNum = W.StartBlockNum ∧ r.EndBlockNum = W.EndBlockNum
      ∧ r.ReadTrieCleanCacheNum = W.ReadTrieCleanCacheNum
      ∧ r.ReadTrieCleanCacheTime = W.ReadTrieCleanCacheTime
      ∧ r.ReadTrieDirtyCacheNum = W.ReadTrieDirtyCacheNum
      ∧ r.ReadTrieDirtyCacheTime = W.ReadTrieDirtyCacheTime
      ∧ r.ReadTableRequestNum = W.ReadTableRequestNum
      ∧ r.ReadTableMissNum = W.ReadTableMissNum
      ∧ r.ReadTableTime = W.ReadTableTime
      ∧ r.ReadBlockRequestNum = W.ReadBlockRequestNum
      ∧ r.ReadBlockMissNum = W.ReadBlockMissNum
      ∧ r.ReadBlockTime = W.ReadBlockTime
      ∧ r.ReadFilterRequestNum = W.ReadFilterRequestNum
      ∧ r.ReadFilterMissNum = W.ReadFilterMissNum
      ∧ r.ReadFilterTime = W.ReadFilterTime
      ∧ (∀ k, r.ReadNumsPerPosition.get k = W.ReadNumsPerPosition.get k)
      ∧ (∀ k, r.ReadNumsPerType.get k = W.ReadNumsPerType.get k)
      ∧ (∀ k, r.ReadTimesPerPosition.get k
          = if k ∈ W.ReadNumsPerPosition.keys then W.ReadTimesPerPosition.get k else I64.zero)
      ∧ (∀ k, r.ReadSizesPerPosition.get k
          = if k ∈ W.ReadNumsPerPosition.keys then W.ReadSizesPerPosition.get k else I64.zero)
      ∧ (∀ k, r.ReadTimesPerType.get k
          = if k ∈ W.ReadNumsPerType.keys then W.ReadTimesPerType.get k else I64.zero)
      ∧ (∀ k, r.ReadSizesPerType.get k
          = if k ∈ W.ReadNumsPerType.keys then W.ReadSizesPerType.get k else I64.zero)
      ∧ ((∀ k, k ∈ W.ReadTimesPerPosition.keys → k ∈ W.ReadNumsPerPosition.keys) →
          ∀ k, r.ReadTimesPerPosition.get k = W.ReadTimesPerPosition.get k)
      ∧ ((∀ k, k ∈ W.ReadSizesPerPosition.keys → k ∈ W.ReadNumsPerPosition.keys) →
          ∀ k, r.ReadSizesPerPosition.get k = W.ReadSizesPerPosition.get k)
      ∧ ((∀ k, k ∈ W.ReadTimesPerType.keys → k ∈ W.ReadNumsPerType.keys) →
          ∀ k, r.ReadTimesPerType.get k = W.ReadTimesPerType.get k)
      ∧ ((∀ k, k ∈ W.ReadSizesPerType.keys → k ∈ W.ReadNumsPerType.keys) →
          ∀ k, r.ReadSizesPerType.get k = W.ReadSizesPerType.get k) := by
  refine ⟨⟨rfl, rfl, rfl, rfl, rfl, rfl, rfl, rfl, rfl, rfl, rfl, rfl, rfl, rfl, rfl, rfl, rfl,
    rfl, rfl, rfl, rfl⟩, CacheStat.Add.merged NewCacheStat W, Add_fresh W, ?_⟩
  obtain ⟨hs, he⟩ := merged_fresh_bounds W
  obtain ⟨t1, t2, t3, t4⟩ := merged_trie NewCacheStat W
  obtain ⟨q1, q2, q3, q4, q5, q6, q7, q8, q9⟩ := merged_requests NewCacheStat W
  have hz : ∀ a : I64, I64.add I64.zero a = a := I64.zero_add
  have hts : ∀ k, _ := merged_times_sizes_get NewCacheStat W (fresh_writable W)
  have hc : ∀ k, _ := merged_counts_get NewCacheStat W (fresh_writable W)
  have e1 : ∀ k, (CacheStat.Add.merged NewCacheStat W).ReadTimesPerPosition.get k
      = if k ∈ W.ReadNumsPerPosition.keys then W.ReadTimesPerPosition.get k else I64.zero := by
    intro k; rw [(hts k).1]; split
    · exact hz _
    · rfl
  have e2 : ∀ k, (CacheStat.Add.merged NewCacheStat W).ReadSizesPerPosition.get k
      = if k ∈ W.ReadNumsPerPosition.keys then W.ReadSizesPerPosition.get k else I64.zero := by
    intro k; rw [(hts k).2.1]; split
    · exact hz _
    · rfl
  have e3 : ∀ k, (CacheStat.Add.merged NewCacheStat W).ReadTimesPerType.get k
      = if k ∈ W.ReadNumsPerType.keys then W.ReadTimesPerType.get k else I64.zero := by
    intro k; rw [(hts k).2.2.1]; split
    · exact hz _
    · rfl
  have e4 : ∀ k, (CacheStat.Add.merged NewCacheStat W).ReadSizesPerType.get k
      = if k ∈ W.ReadNumsPerType.keys then W.ReadSizesPerType.get k else I64.zero := by
    intro k; rw [(hts k).2.2.2]; split
    · exact hz _
    · rfl
  have aligned : ∀ (f : String → I64) (m c : GoMap),
      (∀ k, f k = if k ∈ c.keys then m.get k else I64.zero) →
      (∀ k, k ∈ m.keys → k ∈ c.keys) → ∀ k, f k = m.get k := by
    intro f m c hf hsub k
    rw [hf k]
    split
    · rfl
    · rename_i hk
      exact (GoMap.get_of_not_mem m k (fun hm => hk (hsub k hm))).symm
  refine ⟨hs, he, t1.trans (hz _), t2.trans (hz _), t3.trans (hz _), t4.trans (hz _),
    q1.trans (hz _), q2.trans (hz _), q3.trans (hz _), q4.trans (hz _), q5.trans (hz _),
    q6.trans (hz _), q7.trans (hz _), q8.trans (hz _), q9.trans (hz _),
    fun k => (hc k).1.trans (hz _), fun k => (hc k).2.trans (hz _), e1, e2, e3, e4,
    aligned _ _ _ e1, aligned _ _ _ e2, aligned _ _ _ e3, aligned _ _ _ e4⟩

/-- C7, counterexample: merging a fresh window into the non-empty window `[1,10]` signals
the contiguity error, because the fresh window starts at 0 and not at 11. -/
theorem Add_fresh_into_nonempty_rejected :
    CacheStat.Add (window 1 10) NewCacheStat
      = Except.error ⟨Fault.exitContiguity, window 1 10⟩ :=
  rfl

/-- C7, amended: a fresh window is a right identity on the empty-bounds windows only. For
every window `A` with `StartBlockNum == 0` and `EndBlockNum == 0`, `Add(A, NewCacheStat())`
completes and leaves every field and every map of `A` unchanged. For every non-empty window
`A` that does not end at the largest `uint64`, `Add(A, NewCacheStat())` signals the
contiguity error. -/
theorem Add_fresh_right (A : CacheStat) :
    ((A.StartBlockNum.val = 0 ∧ A.EndBlockNum.val = 0) →
        CacheStat.Add A NewCacheStat = Except.ok A)
      ∧ ((A.StartBlockNum.val ≠ 0 ∨ A.EndBlockNum.val ≠ 0) → A.EndBlockNum.val + 1 ≠ 2 ^ 64 →
        CacheStat.Add A NewCacheStat = Except.error ⟨Fault.exitContiguity, A⟩) := by
  constructor
  · rintro ⟨hs, he⟩
    have hv : ¬ CacheStat.Add.violation A NewCacheStat := by
      intro h
      rcases h.1 with h1 | h1
      · exact h1 hs
      · exact h1 he
    have hw : CacheStat.Add.writable A NewCacheStat := ⟨Or.inl rfl, Or.inl rfl⟩
    rw [Add_of_writable A NewCacheStat hv hw]
    congr 1
    obtain ⟨s, e, c1, c2, c3, c4, m1, m2, m3, m4, m5, m6, r1, r2, r3, r4, r5, r6, r7, r8, r9⟩ := A
    have hs2 : s = U64.ofNat 0 := Subtype.ext hs
    have he2 : e = U64.ofNat 0 := Subtype.ext he
    subst hs2 he2
    have hz : ∀ a : I64, I64.add a I64.zero = a := I64.add_zero
    have hm : ∀ (g : String → I64 → I64) (m : GoMap), m.mergeWith g [] = m :=
      GoMap.mergeWith_nil
    simp [CacheStat.Add.merged, CacheStat.Add.requestScalars, CacheStat.Add.typeMerged,
      CacheStat.Add.positionMerged, CacheStat.Add.trieScalars, NewCacheStat,
      CacheStat.zeroValue, GoMap.make, GoMap.entries, hz, hm]
  · intro hne hmax
    apply Add_of_violation
    refine ⟨hne, ?_⟩
    have h0 : NewCacheStat.StartBlockNum.val = 0 := by decide
    have hlt := A.EndBlockNum.property
    rw [h0]
    omega

/-- C7, witness: the empty-bounds window with counters is unchanged by merging a fresh
window, and the non-empty `[1,10]` rejects it. -/
theorem Add_fresh_right_witness :
    (unboundedWindow.StartBlockNum.val = 0 ∧ unboundedWindow.EndBlockNum.val = 0)
      ∧ CacheStat.Add unboundedWindow NewCacheStat = Except.ok unboundedWindow
      ∧ (window 1 10).StartBlockNum.val ≠ 0
      ∧ (window 1 10).EndBlockNum.val + 1 ≠ 2 ^ 64
      ∧ CacheStat.Add (window 1 10) NewCacheStat
        = Except.error ⟨Fault.exitContiguity, window 1 10⟩ :=
  ⟨by decide, (Add_fresh_right unboundedWindow).1 (by decide), by decide, by decide,
    (Add_fresh_right (window 1 10)).2 (Or.inl (by decide)) (by decide)⟩

/-! ## Merging a contiguous sequence (C8) -/

/-- C8, counterexample: the sequence `[0,0]`, `[1,5]` is contiguous (1 = 0 + 1) and merging
it into a fresh accumulator succeeds, but the result starts at 1 and not at the start 0 of
the first window: after `[0,0]` the accumulator still counts as empty, so it adopts the
start of `[1,5]`. -/
theorem mergeAll_empty_first_window_start :
    (window 1 5).StartBlockNum.val = (window 0 0).EndBlockNum.val + 1
      ∧ mergeAll [window 0 0, window 1 5] NewCacheStat = Except.ok (window 1 5)
      ∧ (window 1 5).StartBlockNum ≠ (window 0 0).StartBlockNum :=
  ⟨by decide, rfl, by decide⟩

/-- C8, amended: for every non-empty sequence of windows in which each window starts
immediately after the previous one ends, and in which the first window has
`StartBlockNum != 0` or no window but the last has `EndBlockNum == 0`, merging them in order
with `Add` into a fresh accumulator succeeds at every step and yields the `StartBlockNum`
of the first window, the `EndBlockNum` of the last window, and for every key a per-position
and a per-type count equal to the `int64` (wrapping) sum of the counts of that key over all
the windows, which is the exact sum whenever the exact sum fits in `int64`. -/
theorem mergeAll_contiguous (ws : List CacheStat) (hne : ws ≠ [])
    (hchain : List.Chain'
      (fun a b : CacheStat => b.StartBlockNum.val = a.EndBlockNum.val + 1) ws)
    (hstart : (ws.head hne).StartBlockNum.val ≠ 0
      ∨ ∀ w ∈ ws.dropLast, w.EndBlockNum.val ≠ 0) :
    ∃ r, mergeAll ws NewCacheStat = Except.ok r
      ∧ r.StartBlockNum = (ws.head hne).StartBlockNum
      ∧ r.EndBlockNum = (ws.getLast hne).EndBlockNum
      ∧ (∀ k, (r.ReadNumsPerPosition.get k).val
            = wrap64 ((ws.map fun w => (w.ReadNumsPerPosition.get k).val).sum)
          ∧ (-(2 ^ 63) ≤ (ws.map fun w => (w.ReadNumsPerPosition.get k).val).sum
              ∧ (ws.map fun w => (w.ReadNumsPerPosition.get k).val).sum < 2 ^ 63 →
            (r.ReadNumsPerPosition.get k).val
              = (ws.map fun w => (w.ReadNumsPerPosition.get k).val).sum))
      ∧ (∀ k, (r.ReadNumsPerType.get k).val
            = wrap64 ((ws.map fun w => (w.ReadNumsPerType.get k).val).sum)
          ∧ (-(2 ^ 63) ≤ (ws.map fun w => (w.ReadNumsPerType.get k).val).sum
              ∧ (ws.map fun w => (w.ReadNumsPerType.get k).val).sum < 2 ^ 63 →
            (r.ReadNumsPerType.get k).val
              = (ws.map fun w => (w.ReadNumsPerType.get k).val).sum)) := by
  cases ws with
  | nil => exact absurd rfl hne
  | cons W1 rest =>
    have hchain0 : List.Chain
        (fun a b : CacheStat => b.StartBlockNum.val = a.EndBlockNum.val + 1) W1 rest := hchain
    obtain ⟨hs, he⟩ := merged_fresh_bounds W1
    have hchain1 : List.Chain
        (fun a b : CacheStat => b.StartBlockNum.val = a.EndBlockNum.val + 1)
        (CacheStat.Add.merged NewCacheStat W1) rest := by
      cases rest with
      | nil => exact List.Chain.nil
      | cons y ys =>
        rw [List.chain_cons] at hchain0 ⊢
        exact ⟨by rw [he]; exact hchain0.1, hchain0.2⟩
    have hH1 : (CacheStat.Add.merged NewCacheStat W1).StartBlockNum.val ≠ 0
        ∨ ∀ x ∈ (CacheStat.Add.merged NewCacheStat W1 :: rest).dropLast,
            x.EndBlockNum.val ≠ 0 := by
      rcases hstart with h | h
      · left; rw [hs]; exact h
      · right
        intro x hx
        cases rest with
        | nil => simp [List.dropLast] at hx
        | cons y ys =>
          simp only [List.dropLast_cons₂, List.mem_cons] at hx h
          rcases hx with hx | hx
          · rw [hx, he]
            exact h W1 (Or.inl rfl)
          · exact h x (Or.inr hx)
    obtain ⟨r, hr, hrs, hre, hrp, hrt⟩ :=
      mergeAll_chain rest (CacheStat.Add.merged NewCacheStat W1)
        (merged_positionInit NewCacheStat W1 (by decide))
        (merged_typeInit NewCacheStat W1 (by decide)) hchain1 hH1
    have hw := fresh_writable W1
    have hpos : ∀ k, (r.ReadNumsPerPosition.get k).val
        = wrap64 (((W1 :: rest).map fun w => (w.ReadNumsPerPosition.get k).val).sum) := by
      intro k
      have hz : NewCacheStat.ReadNumsPerPosition.get k = I64.zero := rfl
      rw [hrp k, (merged_counts_get NewCacheStat W1 hw k).1, hz, I64.zero_add]
      simp only [List.map_cons, List.sum_cons]
    have htyp : ∀ k, (r.ReadNumsPerType.get k).val
        = wrap64 (((W1 :: rest).map fun w => (w.ReadNumsPerType.get k).val).sum) := by
      intro k
      have hz : NewCacheStat.ReadNumsPerType.get k = I64.zero := rfl
      rw [hrt k, (merged_counts_get NewCacheStat W1 hw k).2, hz, I64.zero_add]
      simp only [List.map_cons, List.sum_cons]
    refine ⟨r, ?_, hrs.trans hs, ?_,
      fun k => ⟨hpos k, fun hin => (hpos k).trans (wrap64_of_range _ hin)⟩,
      fun k => ⟨htyp k, fun hin => (htyp k).trans (wrap64_of_range _ hin)⟩⟩
    · simp only [mergeAll, Add_fresh W1]
      exact hr
    · rw [hre]
      cases rest with
      | nil => simpa using he
      | cons y ys => simp [List.getLast_cons]

/-- C8, witness: the windows `[1,10]`, `[11,20]`, `[21,30]` of the specification, with
position counts clean 3, disk 4, clean 5: the result is `[1,30]` with clean 8 and disk 4. -/
theorem mergeAll_contiguous_witness :
    [cleanWindow, diskWindow, thirdWindow] ≠ []
      ∧ List.Chain' (fun a b : CacheStat => b.StartBlockNum.val = a.EndBlockNum.val + 1)
        [cleanWindow, diskWindow, thirdWindow]
      ∧ cleanWindow.StartBlockNum.val ≠ 0
      ∧ ∃ r, mergeAll [cleanWindow, diskWindow, thirdWindow] NewCacheStat = Except.ok r
        ∧ r.StartBlockNum.val = 1 ∧ r.EndBlockNum.val = 30
        ∧ (r.ReadNumsPerPosition.get "clean").val = 8
        ∧ (r.ReadNumsPerPosition.get "disk").val = 4
        ∧ (r.ReadNumsPerType.get "code").val = 7 := by
  have hc : List.Chain' (fun a b : CacheStat => b.StartBlockNum.val = a.EndBlockNum.val + 1)
      [cleanWindow, diskWindow, thirdWindow] := by
    simp only [List.chain'_cons, List.chain'_singleton, and_true]
    decide
  obtain ⟨r, hr, hs, he, hp, ht⟩ :=
    mergeAll_contiguous [cleanWindow, diskWindow, thirdWindow] (by simp) hc
      (Or.inl (by decide))
  refine ⟨by simp, hc, by decide, r, hr, ?_, ?_, ?_, ?_, ?_⟩
  · rw [hs]; decide
  · rw [he]; decide
  · rw [(hp "clean").1]; decide
  · rw [(hp "disk").1]; decide
  · rw [(ht "code").1]; decide

/-! ## The report (C10) -/

/-- C10, failing input: on the window `[1,10]` whose count map has the key `"disk"` with
count 0, `Print` divides the time of `"disk"` by its count with no guard and ends in the
run-time panic "integer divide by zero": the key is not omitted. -/
theorem Print_zero_count_key_panics :
    zeroCountWindow.ReadNumsPerPosition.keys = ["disk"]
      ∧ zeroCountWindow.ReadNumsPerPosition.get "disk" = I64.zero
      ∧ zeroCountWindow.Print = Except.error Fault.divideByZero :=
  ⟨rfl, rfl, rfl⟩

/-! ## The layer sections of the report (C11, C12, C13) -/

/-- C11, counterexample: the window `[1,10]` has no position key, so its total read time is
0, and 5 table requests in 500 ns. `Print` completes and reports the table read time with
a time portion computed from 500 and the total 0: the portion is not omitted, and the
division by 0 has no number as its value. -/
theorem Print_portion_over_zero_total :
    tableOnlyWindow.ReadNumsPerPosition.keys = []
      ∧ tableOnlyWindow.Print = Except.ok
        [Line.window (U64.ofNat 1) (U64.ofNat 10),
          Line.text "print data read stats in LevelDB",
          Line.readTime Layer.table (I64.ofInt 100) (I64.ofInt 5) (I64.ofInt 500)
            ⟨I64.ofInt 500, I64.zero⟩,
          Line.missCnt Layer.table (I64.ofInt 1),
          Line.hitRate Layer.table ⟨I64.ofInt 1, I64.ofInt 5⟩,
          Line.requestNum Layer.block I64.zero,
          Line.requestNum Layer.filter I64.zero,
          Line.text "print trie node read stats in Geth"]
      ∧ Pct.exact ⟨I64.ofInt 500, I64.zero⟩ = none :=
  ⟨rfl, rfl, rfl⟩

/-- C11, amended: `Print` has no guard on the total read time. For every window on which
`Print` completes (no key of a count map has count 0) and for each of the table, block and
filter layers: a read-time line with a time portion is reported exactly when the request
count of the layer is greater than 0, and its portion is then computed from the time of
the layer and the total read time over the position keys (the wrapping `int64` sum),
whatever that total is. When the total is 0 the portion is a division by 0, which has no
number as its value. -/
theorem Print_portion (cs : CacheStat) (h : CacheStat.Print.noZeroCount cs) :
    ∃ lines totalTime, cs.Print = Except.ok lines
      ∧ totalTime.val = wrap64 (cs.ReadTimesPerPosition.sumOver cs.ReadNumsPerPosition.keys)
      ∧ ∀ L : Layer,
        ((cs.requestNumOf L).val > 0 →
          ∃ avg, Line.readTime L avg (cs.requestNumOf L) (cs.readTimeOf L)
            ⟨cs.readTimeOf L, totalTime⟩ ∈ lines)
        ∧ (∀ avg c t p, Line.readTime L avg c t p ∈ lines →
          (cs.requestNumOf L).val > 0 ∧ p = ⟨cs.readTimeOf L, totalTime⟩)
        ∧ (totalTime.val = 0 → Pct.exact ⟨cs.readTimeOf L, totalTime⟩ = none) := by
  refine ⟨CacheStat.Print.report cs, (CacheStat.Print.diskTotals cs).time,
    Print_of_noZeroCount cs h, (diskTotals_val cs).2.1, fun L => ⟨fun hr => ?_, ?_, ?_⟩⟩
  · exact ⟨I64.quot (cs.readTimeOf L) (cs.requestNumOf L),
      (mem_report_readTime cs L _ _ _ _).mpr ⟨hr, rfl, rfl, rfl, rfl⟩⟩
  · intro avg c t p hm
    obtain ⟨hr, _, _, _, hp⟩ := (mem_report_readTime cs L avg c t p).mp hm
    exact ⟨hr, hp⟩
  · intro h0
    simp [Pct.exact, h0]

/-- C11, witness: the window `[1,10]` with 5 table requests and no position key. -/
theorem Print_portion_witness :
    CacheStat.Print.noZeroCount tableOnlyWindow
      ∧ ∃ lines totalTime, tableOnlyWindow.Print = Except.ok lines
        ∧ totalTime.val = 0
        ∧ (∃ avg, Line.readTime Layer.table avg (I64.ofInt 5) (I64.ofInt 500)
            ⟨I64.ofInt 500, totalTime⟩ ∈ lines)
        ∧ Pct.exact ⟨I64.ofInt 500, totalTime⟩ = none := by
  have hz : CacheStat.Print.noZeroCount tableOnlyWindow := by decide
  obtain ⟨lines, totalTime, hp, ht, hL⟩ := Print_portion tableOnlyWindow hz
  have ht0 : totalTime.val = 0 := by rw [ht]; decide
  exact ⟨hz, lines, totalTime, hp, ht0, (hL Layer.table).1 (by decide),
    (hL Layer.table).2.2 ht0⟩

/-- C12, failing input: the window `[1,10]` has 5 table requests and the position key
`"disk"` at count 0. `Print` panics in the loop over the position keys, before the table
section, and reports no average for the table layer. -/
theorem Print_panics_before_layer_sections :
    zeroCountTableWindow.ReadTableRequestNum.val > 0
      ∧ zeroCountTableWindow.Print = Except.error Fault.divideByZero :=
  ⟨by decide, rfl⟩

/-- C12, on the windows where `Print` completes (no key of a count map has count 0): for
each of the table, block and filter layers, the lines `Print` reports for the layer are,
when the request count is greater than 0, the read-time line with the average
`timeNs / requests`, which is the quotient truncated toward zero, then the miss count and
the hit rate; otherwise only the request count. -/
theorem Print_layer_section (cs : CacheStat) (h : CacheStat.Print.noZeroCount cs) :
    ∃ lines, cs.Print = Except.ok lines
      ∧ ∀ L : Layer,
        lines.filter (fun ln => ln.layerOf = some L)
          = (if (cs.requestNumOf L).val > 0 then
              [Line.readTime L (I64.quot (cs.readTimeOf L) (cs.requestNumOf L))
                  (cs.requestNumOf L) (cs.readTimeOf L)
                  ⟨cs.readTimeOf L, (CacheStat.Print.diskTotals cs).time⟩,
                Line.missCnt L (cs.missNumOf L),
                Line.hitRate L ⟨cs.missNumOf L, cs.requestNumOf L⟩]
            else [Line.requestNum L (cs.requestNumOf L)])
        ∧ ((cs.requestNumOf L).val > 0 →
          (I64.quot (cs.readTimeOf L) (cs.requestNumOf L)).val
            = Int.tdiv (cs.readTimeOf L).val (cs.requestNumOf L).val) :=
  ⟨CacheStat.Print.report cs, Print_of_noZeroCount cs h,
    fun L => ⟨report_filter_layer cs L, I64.quot_val_of_pos _ _⟩⟩

/-- C12, on a window where `Print` completes: 5 table requests in 500 ns give the average 100, and the block layer
with 0 requests gives only its request count. -/
theorem Print_layer_section_witness :
    CacheStat.Print.noZeroCount tableOnlyWindow
      ∧ ∃ lines, tableOnlyWindow.Print = Except.ok lines
        ∧ lines.filter (fun ln => ln.layerOf = some Layer.table)
          = [Line.readTime Layer.table (I64.ofInt 100) (I64.ofInt 5) (I64.ofInt 500)
              ⟨I64.ofInt 500, I64.zero⟩,
            Line.missCnt Layer.table (I64.ofInt 1),
            Line.hitRate Layer.table ⟨I64.ofInt 1, I64.ofInt 5⟩]
        ∧ lines.filter (fun ln => ln.layerOf = some Layer.block)
          = [Line.requestNum Layer.block I64.zero] := by
  have hz : CacheStat.Print.noZeroCount tableOnlyWindow := by decide
  obtain ⟨lines, hp, hL⟩ := Print_layer_section tableOnlyWindow hz
  exact ⟨hz, lines, hp, (hL Layer.table).1.trans rfl, (hL Layer.block).1.trans rfl⟩

/-- C13: for a layer with `requests > 0` the section reports the hit rate from the pair
(misses, requests), and its value in exact rational arithmetic,
`100 - misses / requests * 100`, is not clamped: with `misses >= 0` it lies in `[0,100]` if
and only if `misses <= requests`, and with `misses > requests` it is negative. -/
theorem hitRate_exact_range (layer : Layer) (requestNum missNum time total : I64)
    (h : requestNum.val > 0) :
    CacheStat.Print.requests layer requestNum missNum time total
        = Except.ok [Line.readTime layer (I64.quot time requestNum) requestNum time
            ⟨time, total⟩,
          Line.missCnt layer missNum, Line.hitRate layer ⟨missNum, requestNum⟩]
      ∧ Pct.hitRateExact ⟨missNum, requestNum⟩
        = some (100 - (missNum.val : ℚ) / (requestNum.val : ℚ) * 100)
      ∧ (0 ≤ missNum.val →
        ((0 ≤ 100 - (missNum.val : ℚ) / (requestNum.val : ℚ) * 100
            ∧ 100 - (missNum.val : ℚ) / (requestNum.val : ℚ) * 100 ≤ 100)
          ↔ missNum.val ≤ requestNum.val))
      ∧ (missNum.val > requestNum.val →
        100 - (missNum.val : ℚ) / (requestNum.val : ℚ) * 100 < 0) := by
  have hne : requestNum.val ≠ 0 := by omega
  have hr : (0 : ℚ) < (requestNum.val : ℚ) := by exact_mod_cast h
  refine ⟨?_, ?_, fun hm => ?_, fun hm => ?_⟩
  · rw [Print_requests_ok]
    simp [CacheStat.Print.requestsLines, h]
  · simp [Pct.hitRateExact, Pct.exact, hne]
  · have hm2 : (0 : ℚ) ≤ (missNum.val : ℚ) := by exact_mod_cast hm
    have hq : (0 : ℚ) ≤ (missNum.val : ℚ) / (requestNum.val : ℚ) := div_nonneg hm2 hr.le
    constructor
    · rintro ⟨h0, _⟩
      have h1 : (missNum.val : ℚ) / (requestNum.val : ℚ) ≤ 1 := by linarith
      have h2 : (missNum.val : ℚ) ≤ (requestNum.val : ℚ) := (div_le_one hr).mp h1
      exact_mod_cast h2
    · intro hle
      have h2 : (missNum.val : ℚ) ≤ (requestNum.val : ℚ) := by exact_mod_cast hle
      have h1 : (missNum.val : ℚ) / (requestNum.val : ℚ) ≤ 1 := (div_le_one hr).mpr h2
      constructor <;> linarith
  · have h2 : (requestNum.val : ℚ) < (missNum.val : ℚ) := by exact_mod_cast hm
    have h1 : 1 < (missNum.val : ℚ) / (requestNum.val : ℚ) := (one_lt_div hr).mpr h2
    linarith

/-- C13, witness: 5 requests with 1 miss give the hit rate 80 exactly. -/
theorem hitRate_exact_range_witness :
    (I64.ofInt 5).val > 0
      ∧ Pct.hitRateExact ⟨I64.ofInt 1, I64.ofInt 5⟩ = some 80
      ∧ (I64.ofInt 1).val ≤ (I64.ofInt 5).val := by
  have h5 : (I64.ofInt 5).val > 0 := by decide
  obtain ⟨_, hv, _, _⟩ :=
    hitRate_exact_range Layer.table (I64.ofInt 5) (I64.ofInt 1) (I64.ofInt 500) I64.zero h5
  refine ⟨h5, ?_, by decide⟩
  rw [hv]
  have e1 : (I64.ofInt 1).val = 1 := by decide
  have e5 : (I64.ofInt 5).val = 5 := by decide
  rw [e1, e5]
  norm_num

/-! ## The totals of the report (C14, C15) -/

/-- C14, counterexample: in the window `[1,10]` the position keys `"a"` and `"b"` have the
non-zero counts `2^63 - 1` and 1, whose sum is `2^63`. `Print` completes and reports the
total count `-2^63`, the wrapped `int64` sum. Moreover, in the window `[1,10]` with the
position key `"disk"` at count 2 and the data-type key `"code"` at count 0, every position
key has a non-zero count, but `Print` panics in the loop over the data-type keys, which
runs before the grand total is printed. -/
theorem Print_grand_total_wraps :
    (∀ k ∈ overflowTotalsWindow.ReadNumsPerPosition.keys,
        (overflowTotalsWindow.ReadNumsPerPosition.get k).val ≠ 0)
      ∧ overflowTotalsWindow.ReadNumsPerPosition.sumOver
          overflowTotalsWindow.ReadNumsPerPosition.keys = 2 ^ 63
      ∧ overflowTotalsWindow.Print = Except.ok
        [Line.window (U64.ofNat 1) (U64.ofNat 10),
          Line.text "print data read stats in LevelDB",
          Line.position "a" (I64.ofInt 0) (I64.ofInt (2 ^ 63 - 1)) (I64.ofInt 1) (I64.ofInt 1),
          Line.position "b" (I64.ofInt 1) (I64.ofInt 1) (I64.ofInt 1) (I64.ofInt 1),
          Line.diskTotal (I64.ofInt 0) (I64.ofInt (-(2 ^ 63))) (I64.ofInt 2) (I64.ofInt 2),
          Line.requestNum Layer.table I64.zero, Line.requestNum Layer.block I64.zero,
          Line.requestNum Layer.filter I64.zero,
          Line.text "print trie node read stats in Geth"]
      ∧ (I64.ofInt (-(2 ^ 63))).val = -(2 ^ 63)
      ∧ (∀ k ∈ zeroTypeCountWindow.ReadNumsPerPosition.keys,
        (zeroTypeCountWindow.ReadNumsPerPosition.get k).val ≠ 0)
      ∧ zeroTypeCountWindow.Print = Except.error Fault.divideByZero :=
  ⟨by decide, by decide, rfl, by decide, by decide, rfl⟩

/-- C14, amended: for every window on which the per-key averages are defined, that is
every position key and every data-type key has a non-zero count, `Print` completes; the
totals it holds are the `int64` (wrapping) sums over all position keys of the counts, the
times and the sizes, which are the exact sums whenever those fit in `int64`; and the
grand-total line, with the average `totalTime / totalCount` in integer division and the
three totals, is reported exactly when `totalCount` is non-zero. -/
theorem Print_grand_total (cs : CacheStat) (h : CacheStat.Print.noZeroCount cs) :
    ∃ (lines : List Line) (tot : DiskTotals), cs.Print = Except.ok lines
      ∧ tot.cnt.val = wrap64 (cs.ReadNumsPerPosition.sumOver cs.ReadNumsPerPosition.keys)
      ∧ tot.time.val = wrap64 (cs.ReadTimesPerPosition.sumOver cs.ReadNumsPerPosition.keys)
      ∧ tot.size.val = wrap64 (cs.ReadSizesPerPosition.sumOver cs.ReadNumsPerPosition.keys)
      ∧ (-(2 ^ 63) ≤ cs.ReadNumsPerPosition.sumOver cs.ReadNumsPerPosition.keys
          ∧ cs.ReadNumsPerPosition.sumOver cs.ReadNumsPerPosition.keys < 2 ^ 63 →
        tot.cnt.val = cs.ReadNumsPerPosition.sumOver cs.ReadNumsPerPosition.keys)
      ∧ (-(2 ^ 63) ≤ cs.ReadTimesPerPosition.sumOver cs.ReadNumsPerPosition.keys
          ∧ cs.ReadTimesPerPosition.sumOver cs.ReadNumsPerPosition.keys < 2 ^ 63 →
        tot.time.val = cs.ReadTimesPerPosition.sumOver cs.ReadNumsPerPosition.keys)
      ∧ (-(2 ^ 63) ≤ cs.ReadSizesPerPosition.sumOver cs.ReadNumsPerPosition.keys
          ∧ cs.ReadSizesPerPosition.sumOver cs.ReadNumsPerPosition.keys < 2 ^ 63 →
        tot.size.val = cs.ReadSizesPerPosition.sumOver cs.ReadNumsPerPosition.keys)
      ∧ lines.filter Line.isDiskTotal
        = (if tot.cnt.val ≠ 0 then
            [Line.diskTotal (I64.quot tot.time tot.cnt) tot.cnt tot.time tot.size]
          else []) := by
  obtain ⟨h1, h2, h3⟩ := diskTotals_val cs
  exact ⟨CacheStat.Print.report cs, CacheStat.Print.diskTotals cs, Print_of_noZeroCount cs h,
    h1, h2, h3, fun hin => h1.trans (wrap64_of_range _ hin),
    fun hin => h2.trans (wrap64_of_range _ hin), fun hin => h3.trans (wrap64_of_range _ hin),
    report_filter_diskTotal cs⟩

/-- C14, witness: the window `[1,10]` with 3 reads at `"clean"` in 30 ns and 300 B has the
totals 3, 30 and 300 and the grand average 10. -/
theorem Print_grand_total_witness :
    CacheStat.Print.noZeroCount cleanWindow
      ∧ ∃ (lines : List Line) (tot : DiskTotals), cleanWindow.Print = Except.ok lines
        ∧ tot.cnt.val = 3 ∧ tot.time.val = 30 ∧ tot.size.val = 300
        ∧ lines.filter Line.isDiskTotal
          = (if tot.cnt.val ≠ 0 then
              [Line.diskTotal (I64.quot tot.time tot.cnt) tot.cnt tot.time tot.size]
            else [])
        ∧ (I64.quot (I64.ofInt 30) (I64.ofInt 3)).val = 10 := by
  have hz : CacheStat.Print.noZeroCount cleanWindow := by decide
  obtain ⟨lines, tot, hp, h1, h2, h3, _, _, _, hf⟩ := Print_grand_total cleanWindow hz
  refine ⟨hz, lines, tot, hp, ?_, ?_, ?_, hf, by decide⟩
  · rw [h1]; decide
  · rw [h2]; decide
  · rw [h3]; decide

/-- C15, counterexample: the window `[1,10]` has `2^63 - 1` clean-cache reads and 1
dirty-cache read, so the sum of the three counts is `2^63`, greater than 0. The combined
count `Print` computes is the wrapped `int64` sum `-2^63`, and `Print` completes without
the combined average and without the node cache hit rate. Moreover, on the window of the
specification with, in addition, the position key `"disk"` at count 0, the combined count
is 10 and `Print` panics in the loop over the position keys and reports neither. -/
theorem Print_trie_total_wraps :
    overflowTrieWindow.ReadTrieCleanCacheNum.val + overflowTrieWindow.ReadTrieDirtyCacheNum.val
        + (overflowTrieWindow.ReadNumsPerType.get "trieNode").val = 2 ^ 63
      ∧ (CacheStat.Print.trieTotalCnt overflowTrieWindow).val = -(2 ^ 63)
      ∧ overflowTrieWindow.Print = Except.ok
        [Line.window (U64.ofNat 1) (U64.ofNat 10),
          Line.text "print data read stats in LevelDB",
          Line.requestNum Layer.table I64.zero, Line.requestNum Layer.block I64.zero,
          Line.requestNum Layer.filter I64.zero,
          Line.text "print trie node read stats in Geth",
          Line.trieClean (I64.ofInt 0) (I64.ofInt (2 ^ 63 - 1)) I64.zero,
          Line.trieDirty (I64.ofInt 0) (I64.ofInt 1) I64.zero]
      ∧ (CacheStat.Print.trieTotalCnt trieZeroCountWindow).val = 10
      ∧ trieZeroCountWindow.Print = Except.error Fault.divideByZero :=
  ⟨by decide, by decide, rfl, by decide, rfl⟩

/-- C15, amended: for every window the combined count is the `int64` (wrapping) sum
`ReadTrieCleanCacheNum + ReadTrieDirtyCacheNum + ReadNumsPerType["trieNode"]` and the
combined time is the `int64` sum of the three corresponding times. For every window on
which `Print` completes (no key of a count map has count 0): when the combined count is
greater than 0, `Print` reports the combined average, combined time / combined count in
integer division, and the node cache hit rate
`100 - ReadNumsPerType["trieNode"] / combined count * 100`; otherwise it reports
neither. -/
theorem Print_trie_total (cs : CacheStat) :
    (CacheStat.Print.trieTotalCnt cs).val
        = wrap64 (cs.ReadTrieCleanCacheNum.val + cs.ReadTrieDirtyCacheNum.val
            + (cs.ReadNumsPerType.get "trieNode").val)
      ∧ (CacheStat.Print.trieTotalTime cs).val
        = wrap64 (cs.ReadTrieCleanCacheTime.val + cs.ReadTrieDirtyCacheTime.val
            + (cs.ReadTimesPerType.get "trieNode").val)
      ∧ (CacheStat.Print.noZeroCount cs →
        ∃ lines, cs.Print = Except.ok lines
          ∧ lines.filter Line.isTrieTotal
            = (if (CacheStat.Print.trieTotalCnt cs).val > 0 then
                [Line.trieTotal
                    (I64.quot (CacheStat.Print.trieTotalTime cs) (CacheStat.Print.trieTotalCnt cs))
                    (CacheStat.Print.trieTotalCnt cs) (CacheStat.Print.trieTotalTime cs),
                  Line.nodeHitRate
                    ⟨cs.ReadNumsPerType.get "trieNode", CacheStat.Print.trieTotalCnt cs⟩]
              else [])
          ∧ ((CacheStat.Print.trieTotalCnt cs).val > 0 →
            (I64.quot (CacheStat.Print.trieTotalTime cs) (CacheStat.Print.trieTotalCnt cs)).val
                = Int.tdiv (CacheStat.Print.trieTotalTime cs).val
                    (CacheStat.Print.trieTotalCnt cs).val
              ∧ Pct.hitRateExact
                  ⟨cs.ReadNumsPerType.get "trieNode", CacheStat.Print.trieTotalCnt cs⟩
                = some (100 - ((cs.ReadNumsPerType.get "trieNode").val : ℚ)
                    / ((CacheStat.Print.trieTotalCnt cs).val : ℚ) * 100))) := by
  refine ⟨?_, ?_, fun h => ⟨CacheStat.Print.report cs, Print_of_noZeroCount cs h,
    report_filter_trieTotal cs, fun hc => ⟨I64.quot_val_of_pos _ _ hc, ?_⟩⟩⟩
  · simp only [CacheStat.Print.trieTotalCnt, I64.add, I64.ofInt]
    rw [wrap64_add_left]
  · simp only [CacheStat.Print.trieTotalTime, I64.add, I64.ofInt]
    rw [wrap64_add_left]
  · have hne : (CacheStat.Print.trieTotalCnt cs).val ≠ 0 := by omega
    simp [Pct.hitRateExact, Pct.exact, hne]

/-- C15, witness: clean 3 (30 ns), dirty 2 (20 ns) and `"trieNode"` count 5 in 100 ns give
the combined count 10, the combined time 150, the average 15 and the hit rate 50. -/
theorem Print_trie_total_witness :
    CacheStat.Print.noZeroCount trieWindow
      ∧ (CacheStat.Print.trieTotalCnt trieWindow).val = 10
      ∧ (CacheStat.Print.trieTotalTime trieWindow).val = 150
      ∧ ∃ lines, trieWindow.Print = Except.ok lines
        ∧ lines.filter Line.isTrieTotal
          = [Line.trieTotal (I64.ofInt 15) (I64.ofInt 10) (I64.ofInt 150),
              Line.nodeHitRate ⟨I64.ofInt 5, I64.ofInt 10⟩]
        ∧ Pct.hitRateExact ⟨I64.ofInt 5, I64.ofInt 10⟩ = some 50 := by
  have hz : CacheStat.Print.noZeroCount trieWindow := by decide
  obtain ⟨hc, ht, hP⟩ := Print_trie_total trieWindow
  obtain ⟨lines, hp, hf, hq⟩ := hP hz
  have hc10 : (CacheStat.Print.trieTotalCnt trieWindow).val = 10 := by rw [hc]; decide
  have ht150 : (CacheStat.Print.trieTotalTime trieWindow).val = 150 := by rw [ht]; decide
  have hpos : (CacheStat.Print.trieTotalCnt trieWindow).val > 0 := by rw [hc10]; decide
  have hrate := (hq hpos).2
  have e5 : ((trieWindow.ReadNumsPerType.get "trieNode").val : ℚ) = 5 := by
    have : (trieWindow.ReadNumsPerType.get "trieNode").val = 5 := by decide
    rw [this]; norm_num
  have e10 : ((CacheStat.Print.trieTotalCnt trieWindow).val : ℚ) = 10 := by
    rw [hc10]; norm_num
  rw [e5, e10] at hrate
  refine ⟨hz, hc10, ht150, lines, hp, hf.trans rfl, ?_⟩
  have hsame : (⟨I64.ofInt 5, I64.ofInt 10⟩ : Pct)
      = ⟨trieWindow.ReadNumsPerType.get "trieNode", CacheStat.Print.trieTotalCnt trieWindow⟩ :=
    rfl
  rw [hsame, hrate]
  norm_num

/-! ## Invariants of merging (C16, C18, C19) -/

/-- C16, counterexample: the window `[1,10]` with the largest `int64` as its clean-cache
count and the window `[11,20]` with clean-cache count 1 hold only non-negative values. The
merge succeeds and leaves the clean-cache count of the receiver at `-2^63`: the `int64`
sum wraps. -/
theorem Add_overflow_breaks_nonneg :
    maxCountWindow.nonneg ∧ oneCleanWindow.nonneg
      ∧ CacheStat.Add maxCountWindow oneCleanWindow
        = Except.ok { window 1 20 with ReadTrieCleanCacheNum := I64.ofInt (-(2 ^ 63)) }
      ∧ (I64.ofInt (-(2 ^ 63))).val = -(2 ^ 63)
      ∧ ¬ ({ window 1 20 with ReadTrieCleanCacheNum := I64.ofInt (-(2 ^ 63)) } :
          CacheStat).nonneg := by
  have hmaps : ∀ (w : CacheStat), w.ReadNumsPerPosition = GoMap.make →
      w.ReadTimesPerPosition = GoMap.make → w.ReadSizesPerPosition = GoMap.make →
      w.ReadNumsPerType = GoMap.make → w.ReadSizesPerType = GoMap.make →
      w.ReadTimesPerType = GoMap.make →
      ∀ g ∈ CacheStat.mapFields, ∀ k, 0 ≤ ((g w).get k).val := by
    intro w h1 h2 h3 h4 h5 h6 g hg k
    simp only [CacheStat.mapFields, List.mem_cons, List.mem_singleton, List.mem_nil_iff,
      or_false] at hg
    have hz : ∀ k, (GoMap.make.get k).val = 0 := fun _ => rfl
    rcases hg with h | h | h | h | h | h <;> subst h
    · rw [h1, hz]
    · rw [h2, hz]
    · rw [h3, hz]
    · rw [h4, hz]
    · rw [h5, hz]
    · rw [h6, hz]
  refine ⟨⟨by decide, hmaps _ rfl rfl rfl rfl rfl rfl⟩,
    ⟨by decide, hmaps _ rfl rfl rfl rfl rfl rfl⟩, rfl, by decide, ?_⟩
  intro hn
  have h := hn.1 CacheStat.ReadTrieCleanCacheNum (by simp [CacheStat.scalarFields])
  revert h
  decide

/-- C16, amended: if every count, time and byte size (all scalars and all map values) of
the receiver and of `other` is non-negative, and no sum of a value of the receiver and the
corresponding value of `other` reaches `2^63`, then after a successful `Add` every count,
time and byte size of the receiver is non-negative. -/
theorem Add_preserves_nonneg (cs otherCS r : CacheStat)
    (h : CacheStat.Add cs otherCS = Except.ok r) (hc : cs.nonneg) (ho : otherCS.nonneg)
    (hfit : CacheStat.sumsFit cs otherCS) : r.nonneg := by
  obtain ⟨_, hw, hr⟩ := (Add_eq_ok_iff cs otherCS r).mp h
  subst hr
  refine ⟨fun f hf => ?_, merged_mapFields_nonneg cs otherCS hw hc ho hfit⟩
  rw [merged_scalarFields cs otherCS f hf]
  exact I64.add_nonneg_of_fit _ _ (hc.1 f hf) (ho.1 f hf) (hfit.1 f hf)

/-- C16, witness: `busyWindow` merged into `cleanWindow`. Both windows are populated on the
same keys and scalars, with non-negative values whose sums fit, and the merged receiver is
non-negative with the real sums: 3 + 5 = 8 reads at `"clean"`, 30 + 50 = 80 ns,
2 + 4 = 6 reads of type `"trieNode"`, 5 + 7 = 12 table requests and 0 + 6 = 6 clean-cache
reads. -/
theorem Add_preserves_nonneg_witness :
    CacheStat.Add cleanWindow busyWindow
        = Except.ok (CacheStat.Add.merged cleanWindow busyWindow)
      ∧ cleanWindow.nonneg ∧ busyWindow.nonneg
      ∧ CacheStat.sumsFit cleanWindow busyWindow
      ∧ (CacheStat.Add.merged cleanWindow busyWindow).nonneg
      ∧ ((CacheStat.Add.merged cleanWindow busyWindow).ReadNumsPerPosition.get "clean").val = 8
      ∧ ((CacheStat.Add.merged cleanWindow busyWindow).ReadTimesPerPosition.get "clean").val
        = 80
      ∧ ((CacheStat.Add.merged cleanWindow busyWindow).ReadNumsPerType.get "trieNode").val = 6
      ∧ (CacheStat.Add.merged cleanWindow busyWindow).ReadTableRequestNum.val = 12
      ∧ (CacheStat.Add.merged cleanWindow busyWindow).ReadTrieCleanCacheNum.val = 6 := by
  have hmapsC : ∀ g ∈ CacheStat.mapFields, ∀ k,
      0 ≤ ((g cleanWindow).get k).val ∧ ((g cleanWindow).get k).val ≤ 300 := by
    intro g hg k
    simp only [CacheStat.mapFields, List.mem_cons, List.mem_singleton, List.mem_nil_iff,
      or_false] at hg
    rcases hg with h | h | h | h | h | h <;> subst h
    · show 0 ≤ ((GoMap.single "clean" 3).get k).val ∧ ((GoMap.single "clean" 3).get k).val ≤ 300
      rw [GoMap.single_get]; split <;> decide
    · show 0 ≤ ((GoMap.single "clean" 30).get k).val
        ∧ ((GoMap.single "clean" 30).get k).val ≤ 300
      rw [GoMap.single_get]; split <;> decide
    · show 0 ≤ ((GoMap.single "clean" 300).get k).val
        ∧ ((GoMap.single "clean" 300).get k).val ≤ 300
      rw [GoMap.single_get]; split <;> decide
    · show 0 ≤ ((GoMap.single "trieNode" 2).get k).val
        ∧ ((GoMap.single "trieNode" 2).get k).val ≤ 300
      rw [GoMap.single_get]; split <;> decide
    · show 0 ≤ ((GoMap.single "trieNode" 200).get k).val
        ∧ ((GoMap.single "trieNode" 200).get k).val ≤ 300
      rw [GoMap.single_get]; split <;> decide
    · show 0 ≤ ((GoMap.single "trieNode" 20).get k).val
        ∧ ((GoMap.single "trieNode" 20).get k).val ≤ 300
      rw [GoMap.single_get]; split <;> decide
  have hmapsB : ∀ g ∈ CacheStat.mapFields, ∀ k,
      0 ≤ ((g busyWindow).get k).val ∧ ((g busyWindow).get k).val ≤ 500 := by
    intro g hg k
    simp only [CacheStat.mapFields, List.mem_cons, List.mem_singleton, List.mem_nil_iff,
      or_false] at hg
    rcases hg with h | h | h | h | h | h <;> subst h
    · show 0 ≤ ((GoMap.single "clean" 5).get k).val ∧ ((GoMap.single "clean" 5).get k).val ≤ 500
      rw [GoMap.single_get]; split <;> decide
    · show 0 ≤ ((GoMap.single "clean" 50).get k).val
        ∧ ((GoMap.single "clean" 50).get k).val ≤ 500
      rw [GoMap.single_get]; split <;> decide
    · show 0 ≤ ((GoMap.single "clean" 500).get k).val
        ∧ ((GoMap.single "clean" 500).get k).val ≤ 500
      rw [GoMap.single_get]; split <;> decide
    · show 0 ≤ ((GoMap.single "trieNode" 4).get k).val
        ∧ ((GoMap.single "trieNode" 4).get k).val ≤ 500
      rw [GoMap.single_get]; split <;> decide
    · show 0 ≤ ((GoMap.single "trieNode" 400).get k).val
        ∧ ((GoMap.single "trieNode" 400).get k).val ≤ 500
      rw [GoMap.single_get]; split <;> decide
    · show 0 ≤ ((GoMap.single "trieNode" 40).get k).val
        ∧ ((GoMap.single "trieNode" 40).get k).val ≤ 500
      rw [GoMap.single_get]; split <;> decide
  have hc : cleanWindow.nonneg := ⟨by decide, fun g hg k => (hmapsC g hg k).1⟩
  have hb : busyWindow.nonneg := ⟨by decide, fun g hg k => (hmapsB g hg k).1⟩
  have hfit : CacheStat.sumsFit cleanWindow busyWindow :=
    ⟨by decide, fun g hg k => by
      have h1 := (hmapsC g hg k).2
      have h2 := (hmapsB g hg k).2
      omega⟩
  have hr := Add_preserves_nonneg cleanWindow busyWindow
    (CacheStat.Add.merged cleanWindow busyWindow) rfl hc hb hfit
  exact ⟨rfl, hc, hb, hfit, hr, by decide, by decide, by decide, by decide, by decide⟩

/-- C18: whenever `Add(cs, other)` signals the contiguity error, the receiver at that
point is the receiver before the call: no bound, no scalar and no map has been changed. -/
theorem Add_rejection_atomic (cs otherCS st : CacheStat)
    (h : CacheStat.Add cs otherCS = Except.error ⟨Fault.exitContiguity, st⟩) : st = cs := by
  by_cases hv : CacheStat.Add.violation cs otherCS
  · rw [Add_of_violation cs otherCS hv] at h
    have h2 := Except.error.inj h
    exact (congrArg Halt.state h2).symm
  · by_cases hw : CacheStat.Add.writable cs otherCS
    · rw [Add_of_writable cs otherCS hv hw] at h
      cases h
    · obtain ⟨st2, hst2⟩ := Add_of_not_writable cs otherCS hv hw
      rw [hst2] at h
      cases h

/-- C18, witness: `[15,20]` is rejected after `[1,10]` with counters, and the receiver is
left as it was. -/
theorem Add_rejection_atomic_witness :
    CacheStat.Add cleanWindow (window 15 20)
        = Except.error ⟨Fault.exitContiguity, cleanWindow⟩
      ∧ cleanWindow = cleanWindow :=
  ⟨rfl, Add_rejection_atomic cleanWindow (window 15 20) cleanWindow rfl⟩

/-- C19: if in the receiver and in `other` the time map and the size map of each triple
have exactly the keys of the count map, then after a successful `Add` the same holds for
the receiver, so every key of a count map of the receiver is a key of the time map and of
the size map of its triple. -/
theorem Add_preserves_alignment (cs otherCS r : CacheStat)
    (h : CacheStat.Add cs otherCS = Except.ok r) (hc : cs.aligned) (_ho : otherCS.aligned) :
    r.aligned
      ∧ (∀ k, k ∈ r.ReadNumsPerPosition.keys →
          k ∈ r.ReadTimesPerPosition.keys ∧ k ∈ r.ReadSizesPerPosition.keys)
      ∧ (∀ k, k ∈ r.ReadNumsPerType.keys →
          k ∈ r.ReadTimesPerType.keys ∧ k ∈ r.ReadSizesPerType.keys) := by
  obtain ⟨_, hw, hr⟩ := (Add_eq_ok_iff cs otherCS r).mp h
  subst hr
  have hal : (CacheStat.Add.merged cs otherCS).aligned := by
    intro k
    obtain ⟨p1, p2, p3⟩ := merged_position cs otherCS
    obtain ⟨t1, t2, t3⟩ := merged_type cs otherCS
    obtain ⟨a1, a2, a3, a4⟩ := hc k
    rw [p1, p2, p3, t1, t2, t3,
      GoMap.mem_keys_mergeWith _ _ _ (hw.1.imp id (·.1)) k,
      GoMap.mem_keys_mergeWith _ _ _ (hw.1.imp id (·.2.1)) k,
      GoMap.mem_keys_mergeWith _ _ _ (hw.1.imp id (·.2.2)) k,
      GoMap.mem_keys_mergeWith _ _ _ (hw.2.imp id (·.1)) k,
      GoMap.mem_keys_mergeWith _ _ _ (hw.2.imp id (·.2.1)) k,
      GoMap.mem_keys_mergeWith _ _ _ (hw.2.imp id (·.2.2)) k, a1, a2, a3, a4]
    exact ⟨Iff.rfl, Iff.rfl, Iff.rfl, Iff.rfl⟩
  exact ⟨hal, fun k hk => ⟨(hal k).1.mpr hk, (hal k).2.1.mpr hk⟩,
    fun k hk => ⟨(hal k).2.2.1.mpr hk, (hal k).2.2.2.mpr hk⟩⟩

/-- C19, witness: `[11,20]` with the keys `"disk"` and `"code"` merged into `[1,10]` with
the keys `"clean"` and `"trieNode"`; both windows hold each key in all three maps of its
triple. -/
theorem Add_preserves_alignment_witness :
    CacheStat.Add cleanWindow diskWindow
        = Except.ok (CacheStat.Add.merged cleanWindow diskWindow)
      ∧ cleanWindow.aligned ∧ diskWindow.aligned
      ∧ (CacheStat.Add.merged cleanWindow diskWindow).aligned
      ∧ "disk" ∈ (CacheStat.Add.merged cleanWindow diskWindow).ReadTimesPerPosition.keys := by
  have hc : cleanWindow.aligned := fun k => ⟨Iff.rfl, Iff.rfl, Iff.rfl, Iff.rfl⟩
  have hd : diskWindow.aligned := fun k => ⟨Iff.rfl, Iff.rfl, Iff.rfl, Iff.rfl⟩
  obtain ⟨hal, hpos, _⟩ := Add_preserves_alignment cleanWindow diskWindow
    (CacheStat.Add.merged cleanWindow diskWindow) rfl hc hd
  exact ⟨rfl, hc, hd, hal, (hpos "disk" (by decide)).1⟩

end common
